import Mathlib

/-!
Verification development for the plugin-host core (`lib-plugin-host`).

The definitions below are a shallow embedding of the Rust sources:

* `src/service_registry.rs` — the versioned service registry;
* `src/host.rs`             — the plugin host orchestrator (scan, enable,
  disable, dependency resolution, cascading disable, binary-path lookup);
* `src/loader.rs`           — the loaded-plugin message path.

Rust `HashMap`s are embedded as association lists, `HashSet`s as lists
used with membership only; unbounded `while`/recursion is embedded with a
fuel argument (`none` meaning the fuel ran out; every theorem either
supplies enough fuel or proves it is enough).  Lock poisoning and the
native-code side of plugin loading are outside the embedding: loading is
an explicit environment function, and locks are dropped (the registry is
used under external serialisation, per the spec's scheduling model).
-/

namespace PluginHostModel

/-- Version triple for services, from `lib_plugin_abi::ServiceVersion`
(major, minor, patch as unsigned integers). -/
structure ServiceVersion where
  major : Nat
  minor : Nat
  patch : Nat
deriving DecidableEq, Repr

/-- Modelled from the spec: `ServiceVersion::is_compatible_with` lives in the
external `lib_plugin_abi` crate (not under `src/`).  Spec rule: a provided
version `P` satisfies a requested minimum `R` iff `P.major == R.major` and
`P.minor > R.minor`, or `P.minor == R.minor` and `P.patch >= R.patch`. -/
def ServiceVersion.isCompatibleWith (p r : ServiceVersion) : Bool :=
  p.major == r.major && (p.minor > r.minor || (p.minor == r.minor && p.patch ≥ r.patch))

/-- Modelled from the spec: `ServiceVersion::parse` lives in the external
`lib_plugin_abi` crate.  It parses a `major.minor.patch` string, yielding
`none` on anything else. -/
def ServiceVersion.parse (s : String) : Option ServiceVersion :=
  match (s.splitOn ".").map String.toNat? with
  | [some a, some b, some c] => some ⟨a, b, c⟩
  | _ => none

/-- Embeds `lib_plugin_abi::ServiceDescriptor`: immutable service metadata. -/
structure ServiceDescriptor where
  id : String
  version : ServiceVersion
  provider_id : String
deriving DecidableEq, Repr

/-- Opaque service handle (`lib_plugin_abi::ServiceHandle`): the service id
plus an opaque token standing for the data/vtable pointer pair.  Clones in
Rust share the pointers, so cloning is the identity here. -/
structure ServiceHandle where
  id : String
  token : Nat
deriving DecidableEq, Repr

/-- Modelled from the spec: `lib_plugin_abi::ServiceError` is external to
`src/`; the spec's registry contract names the kinds `AlreadyRegistered`,
`NotFound`, `VersionMismatch` (carrying the offending versions) and
`Internal`. -/
inductive ServiceError where
  | alreadyRegistered (id : String)
  | notFound (id : String)
  | versionMismatch (id : String) (requested provided : ServiceVersion)
  | internal (msg : String)
deriving DecidableEq, Repr

/-- Modelled from the spec: the `message` field of a `ServiceError` as seen
across the ABI; only its propagation (never its exact text) matters to the
host code under verification. -/
def ServiceError.message : ServiceError → String
  | .alreadyRegistered id => "Service already registered: " ++ id
  | .notFound id => "Service not found: " ++ id
  | .versionMismatch id _ _ => "Service version mismatch: " ++ id
  | .internal msg => msg

/-- One registry entry (`service_registry.rs`, `RegisteredService`). -/
structure RegisteredService where
  descriptor : ServiceDescriptor
  handle : ServiceHandle
deriving DecidableEq, Repr

/-- The registry's map `HashMap<String, RegisteredService>` as an
association list keyed by service id. -/
abbrev Registry := List (String × RegisteredService)

/-- Embeds `HashMap::get` on the registry's map. -/
def findService (reg : Registry) (serviceId : String) : Option RegisteredService :=
  (reg.find? (fun e => e.1 == serviceId)).map Prod.snd

/-- Embeds `HashMap::contains_key` on the registry's map. -/
def containsService (reg : Registry) (serviceId : String) : Bool :=
  (findService reg serviceId).isSome

/-- Embeds `ServiceRegistry::register` (`service_registry.rs` lines 31-58): fails
with `AlreadyRegistered` when the id is present, otherwise inserts the
entry.  The lock-poisoning branch is outside the embedding. -/
def register (reg : Registry) (descriptor : ServiceDescriptor) (handle : ServiceHandle) :
    Except ServiceError Registry :=
  let id := descriptor.id
  if containsService reg id then
    Except.error (ServiceError.alreadyRegistered id)
  else
    Except.ok (reg ++ [(id, ⟨descriptor, handle⟩)])

/-- Embeds `ServiceRegistry::lookup` (`service_registry.rs` lines 61-67). -/
def lookup (reg : Registry) (serviceId : String) : Option ServiceHandle :=
  (findService reg serviceId).map (fun s => s.handle)

/-- Embeds `ServiceRegistry::lookup_versioned` (`service_registry.rs` lines
70-97). -/
def lookupVersioned (reg : Registry) (serviceId : String) (minVersion : ServiceVersion) :
    Except ServiceError ServiceHandle :=
  match findService reg serviceId with
  | none => Except.error (ServiceError.notFound serviceId)
  | some registered =>
    if ¬ registered.descriptor.version.isCompatibleWith minVersion then
      Except.error
        (ServiceError.versionMismatch serviceId minVersion registered.descriptor.version)
    else
      Except.ok registered.handle

/-- Embeds `ServiceRegistry::unregister_provider` (`service_registry.rs`
lines 108-121): removes every entry whose provider id matches. -/
def unregisterProvider (reg : Registry) (providerId : String) : Registry :=
  reg.filter (fun e => ¬ e.2.descriptor.provider_id == providerId)

/-- Embeds `ServiceRegistry::has_service`. -/
def hasService (reg : Registry) (serviceId : String) : Bool :=
  containsService reg serviceId

/-- Embeds `ServiceRegistry::len`. -/
def registryLen (reg : Registry) : Nat :=
  reg.length

/-- Concrete registry used to instantiate the registry theorems: one
service `svc` at version 1.2.0 from provider `prov`. -/
def regW : Registry :=
  [("svc", ⟨⟨"svc", ⟨1, 2, 0⟩, "prov"⟩, ⟨"svc", 7⟩⟩)]

/-- Errors of the host (`error.rs`, `HostError`); the variants reached by
the embedded operations, with their diagnostic payloads. -/
inductive HostError where
  | pluginNotFound (id : String)
  | packageNotFound (id : String)
  | notEnabled (id : String)
  | loadFailed (msg : String)
  | symbolNotFound (msg : String)
  | invalidVTable
  | incompatibleApiVersion (expected actual : Nat)
  | initFailed (msg : String)
  | ioError (msg : String)
  | circularDependency (id : String)
  | dependencyNotFound (id : String)
  | serviceNotAvailable (service errorMsg : String)
  | dependencyLoadFailed (plugin dependency errorMsg : String)
deriving DecidableEq, Repr

/-- Filesystem paths as component lists; `PathBuf::join` is list append. -/
abbrev FsPath := List String

/-- Manifest `binary` section (`lib_plugin_manifest::BinaryInfo`), the
field the host reads. -/
structure BinaryInfo where
  name : String
deriving DecidableEq, Repr

/-- Manifest `plugin` section, the fields the host reads. -/
structure PluginSection where
  id : String
  version : String
deriving DecidableEq, Repr

/-- Manifest `compatibility` section, the fields the host reads. -/
structure CompatibilitySection where
  api_version : Nat
  depends_on : List String
deriving DecidableEq, Repr

/-- One entry of the manifest `requires` list. -/
structure ServiceRequirement where
  id : String
  min_version : Option String
  optional : Bool
deriving DecidableEq, Repr

/-- Single-plugin manifest (`lib_plugin_manifest::PluginManifest`), the
fields the host reads. -/
structure PluginManifest where
  plugin : PluginSection
  binary : BinaryInfo
  compatibility : CompatibilitySection
  requires : List ServiceRequirement
deriving DecidableEq, Repr

/-- Embeds `str::trim_start_matches("lib")` with explicit fuel: strips the
prefix `lib` repeatedly.  The fuel `s.length` in `stripLib` always
suffices because each round removes three characters. -/
def stripLibAux : Nat → String → String
  | 0, s => s
  | n + 1, s => if s.startsWith "lib" then stripLibAux n (s.drop 3) else s

/-- Repeatedly strips the leading `lib` of a binary name, as
`trim_start_matches` does in `find_binary_path`. -/
def stripLib (s : String) : String :=
  stripLibAux s.length s

/-- Filename variants tried by `find_binary_path` (`host.rs` lines 48-52),
in source order; `ext` stands for the compile-time platform suffix. -/
def binaryVariants (binary : BinaryInfo) (ext : String) : List String :=
  [binary.name ++ "." ++ ext,
    "lib" ++ binary.name ++ "." ++ ext,
    stripLib binary.name ++ "." ++ ext]

/-- Loop of `find_binary_path` (`host.rs` lines 54-59): first variant whose
joined path exists in the filesystem `fs`. -/
def firstExisting (fs : List FsPath) (dir : FsPath) : List String → Option FsPath
  | [] => none
  | v :: rest =>
    if dir ++ [v] ∈ fs then some (dir ++ [v]) else firstExisting fs dir rest

/-- Embeds `find_binary_path` (`host.rs` lines 38-63): try the variants in
order, fall back to the first variant when none exists. -/
def findBinaryPath (fs : List FsPath) (dir : FsPath) (binary : BinaryInfo) (ext : String) :
    FsPath :=
  let variants := binaryVariants binary ext
  match firstExisting fs dir variants with
  | some p => p
  | none => dir ++ [variants.headI]

/-- Plugin vtable surface reached by the embedded loader operations: the
optional `handle_message` entry, as a pure function from the message pair
to the plugin's reply.  The `info`, `init`, `update` and `cleanup` entries
act on native state outside the embedding. -/
structure PluginVTable where
  handle_message : Option (String → String → Except ServiceError String)

/-- Embeds `loader.rs`'s `LoadedPlugin`: vtable, manifest and the
`initialized` flag.  The library handle and context are native state. -/
structure LoadedPlugin where
  vtable : PluginVTable
  manifest : PluginManifest
  initialized : Bool

/-- Embeds `LoadedPlugin::send_message` (`loader.rs` lines 81-101). -/
def LoadedPlugin.sendMessage (p : LoadedPlugin) (msgType msgData : String) :
    Except HostError String :=
  if ¬ p.initialized then
    Except.error (HostError.notEnabled p.manifest.plugin.id)
  else
    match p.vtable.handle_message with
    | some handler =>
      match handler msgType msgData with
      | Except.ok response => Except.ok response
      | Except.error e => Except.error (HostError.initFailed e.message)
    | none => Except.ok ""

/-- Manifest used by concrete loader instantiations. -/
def manifestW (id : String) (deps : List String) (reqs : List ServiceRequirement) :
    PluginManifest :=
  ⟨⟨id, "1.0.0"⟩, ⟨id⟩, ⟨1, deps⟩, reqs⟩

/-- Embeds `installed.rs`'s `InstalledPlugin`. -/
structure InstalledPlugin where
  manifest : PluginManifest
  path : FsPath
  package_id : String
  enabled : Bool
deriving DecidableEq, Repr

/-- Inventory map `plugins: HashMap<String, InstalledPlugin>` of the host,
as an association list keyed by plugin id. -/
abbrev Plugins := List (String × InstalledPlugin)

/-- Embeds `self.plugins.get(id)`. -/
def lookupPlugin (ps : Plugins) (id : String) : Option InstalledPlugin :=
  (ps.find? (fun e => e.1 == id)).map Prod.snd

/-- Embeds `self.plugins.contains_key(id)`. -/
def containsPlugin (ps : Plugins) (id : String) : Bool :=
  (lookupPlugin ps id).isSome

/-- Direct dependency list of `id` in the inventory (empty when absent,
matching the `if let Some(plugin)` guard of `visit_deps`). -/
def depsOf (ps : Plugins) (id : String) : List String :=
  match lookupPlugin ps id with
  | some plugin => plugin.manifest.compatibility.depends_on
  | none => []

/-- Dependency edge: `x` directly lists `d` in its manifest's
`depends_on`. -/
def DepEdge (ps : Plugins) (x d : String) : Prop :=
  ∃ p, lookupPlugin ps x = some p ∧ d ∈ p.manifest.compatibility.depends_on

/-- Reachability along dependency edges (reflexive-transitive). -/
def Reaches (ps : Plugins) (x d : String) : Prop :=
  Relation.ReflTransGen (DepEdge ps) x d

/-- Mutable state of `resolve_load_order`: the `visited` and `in_progress`
sets and the `result` vector of `visit_deps`. -/
structure VisitState where
  visited : List String
  inProgress : List String
  result : List String
deriving DecidableEq, Repr

/-- Embeds `PluginHost::visit_deps` (`host.rs` lines 540-573), with fuel
bounding the recursion depth (`none` = fuel exhausted; `visitDeps_total`
below shows `ps.length + 1` is always enough from an empty state).  The
`for dep in depends_on` loop, whose `?` short-circuits on the first error,
is embedded as a fold that propagates the first error or fuel exhaustion
unchanged; `depsOf` folds in the `if let Some(plugin)` guard (an absent id
contributes no dependencies). -/
def visitDeps (ps : Plugins) : Nat → String → VisitState → Option (Except HostError VisitState)
  | 0, _, _ => none
  | f + 1, id, s =>
    if id ∈ s.visited then some (Except.ok s)
    else if id ∈ s.inProgress then some (Except.error (HostError.circularDependency id))
    else
      let s1 : VisitState := ⟨s.visited, id :: s.inProgress, s.result⟩
      let afterDeps : Option (Except HostError VisitState) :=
        (depsOf ps id).foldl
          (fun acc dep =>
            match acc with
            | some (Except.ok st) =>
              if ¬ containsPlugin ps dep then
                some (Except.error (HostError.dependencyNotFound dep))
              else visitDeps ps f dep st
            | other => other)
          (some (Except.ok s1))
      match afterDeps with
      | none => none
      | some (Except.error e) => some (Except.error e)
      | some (Except.ok s2) =>
        some (Except.ok ⟨id :: s2.visited, s2.inProgress.erase id, s2.result ++ [id]⟩)

/-- The dependency loop of `visit_deps` as a standalone function (equal by
definition to the fold inside `visitDeps`), used to state the loop
invariants. -/
def visitFold (ps : Plugins) (f : Nat) (deps : List String)
    (acc : Option (Except HostError VisitState)) : Option (Except HostError VisitState) :=
  deps.foldl
    (fun acc dep =>
      match acc with
      | some (Except.ok st) =>
        if ¬ containsPlugin ps dep then
          some (Except.error (HostError.dependencyNotFound dep))
        else visitDeps ps f dep st
      | other => other)
    acc

/-- Embeds `PluginHost::resolve_load_order` (`host.rs` lines 530-538). -/
def resolveLoadOrder (ps : Plugins) (fuel : Nat) (pluginId : String) :
    Option (Except HostError (List String)) :=
  match visitDeps ps fuel pluginId ⟨[], [], []⟩ with
  | none => none
  | some (Except.error e) => some (Except.error e)
  | some (Except.ok s) => some (Except.ok s.result)

/-- Invariant of the DFS state: `visited` and `result` hold the same ids,
`result` and `in_progress` are duplicate-free, `in_progress` is disjoint
from `visited`, and `result` is dependency-closed with every direct
dependency placed strictly earlier. -/
structure VisitInv (ps : Plugins) (s : VisitState) : Prop where
  mem_iff : ∀ x, x ∈ s.visited ↔ x ∈ s.result
  nodupRes : s.result.Nodup
  nodupInProg : s.inProgress.Nodup
  disj : ∀ x, x ∈ s.inProgress → x ∉ s.visited
  respects : ∀ x d, x ∈ s.result → DepEdge ps x d →
    d ∈ s.result ∧ s.result.indexOf d < s.result.indexOf x

/-- Postcondition of a successful `visit_deps` call. -/
structure DFSOk (ps : Plugins) (s s' : VisitState) (id : String) : Prop where
  inv : VisitInv ps s'
  inprog_eq : s'.inProgress = s.inProgress
  growth : ∃ t, s'.result = s.result ++ t
  visited_id : id ∈ s'.visited
  visited_mono : ∀ x, x ∈ s.visited → x ∈ s'.visited
  pushed_last : id ∉ s.visited → ∃ t, s'.result = s.result ++ t ++ [id]

/-- Postcondition of a successful run of the dependency loop. -/
structure DFSFoldOk (ps : Plugins) (s s' : VisitState) (deps : List String) : Prop where
  inv : VisitInv ps s'
  inprog_eq : s'.inProgress = s.inProgress
  growth : ∃ t, s'.result = s.result ++ t
  visited_deps : ∀ d, d ∈ deps → d ∈ s'.visited
  visited_mono : ∀ x, x ∈ s.visited → x ∈ s'.visited

/-- Concrete inventories instantiating the resolver theorems: a single
dependency-free plugin. -/
def psA : Plugins :=
  [("A", ⟨manifestW "A" [] [], ["A"], "A", false⟩)]

/-- Two-plugin dependency cycle X -> Y -> X from the spec's cycle-detection
scenario. -/
def psXY : Plugins :=
  [("X", ⟨manifestW "X" ["Y"] [], ["X"], "X", false⟩),
    ("Y", ⟨manifestW "Y" ["X"] [], ["Y"], "Y", false⟩)]

/-- Inventory whose dependency graph reachable from `T` has a cycle
(`b -> b`) as well as a missing dependency `a` listed first. -/
def psTab : Plugins :=
  [("T", ⟨manifestW "T" ["a", "b"] [], ["T"], "T", false⟩),
    ("b", ⟨manifestW "b" ["b"] [], ["b"], "b", false⟩)]

/-- Manifest of a multi-plugin package (`lib_plugin_manifest`), with
`plugins` standing for the result of `expand_plugins()`. -/
structure PackageManifest where
  id : String
  version : String
  plugins : List PluginManifest
deriving DecidableEq, Repr

/-- Embeds `lib_plugin_manifest::Manifest` (single or package). -/
inductive Manifest where
  | single : PluginManifest → Manifest
  | package : PackageManifest → Manifest
deriving DecidableEq, Repr

/-- Embeds `Manifest::id`. -/
def Manifest.idOf : Manifest → String
  | .single m => m.plugin.id
  | .package pm => pm.id

/-- Embeds `Manifest::plugin_ids`. -/
def Manifest.pluginIds : Manifest → List String
  | .single m => [m.plugin.id]
  | .package pm => pm.plugins.map (fun m => m.plugin.id)

/-- Embeds `installed.rs`'s `InstalledPackage`. -/
structure InstalledPackage where
  manifest : Manifest
  path : FsPath
  plugin_ids : List String
deriving DecidableEq, Repr

/-- Loaded-plugins map `loaded: HashMap<String, LoadedPlugin>`. -/
abbrev LoadedMap := List (String × LoadedPlugin)

/-- Embeds `self.loaded.get(id)`. -/
def lookupLoaded (m : LoadedMap) (id : String) : Option LoadedPlugin :=
  (m.find? (fun e => e.1 == id)).map Prod.snd

/-- Embeds `self.loaded.contains_key(id)`. -/
def containsLoaded (m : LoadedMap) (id : String) : Bool :=
  (lookupLoaded m id).isSome

/-- Embeds `self.loaded.remove(id)` (the map after removal). -/
def removeLoaded (m : LoadedMap) (id : String) : LoadedMap :=
  m.filter (fun e => ¬ e.1 == id)

/-- Embeds `if let Some(p) = self.plugins.get_mut(id) { p.enabled = b }`. -/
def setEnabled (ps : Plugins) (id : String) (b : Bool) : Plugins :=
  ps.map (fun e => if e.1 == id then (e.1, { e.2 with enabled := b }) else e)

/-- Mutable state of the host orchestrator (`PluginHost`, `host.rs` lines
20-34) reached by the embedded operations: inventory maps, loaded map,
shared service registry, and the set of existing files standing for the
filesystem (`path.exists()`).  Config, install status, registry client,
verifier and the callback bridge are not read by these operations. -/
structure HostState where
  packages : List (String × InstalledPackage)
  plugins : Plugins
  loaded : LoadedMap
  service_registry : Registry
  fs : List FsPath

/-- Observable side effects of teardown, in order: plugin `cleanup` calls
and registry-wide provider unregistration. -/
inductive HostEvent where
  | cleanup (pluginId : String)
  | unregisterProvider (providerId : String)
deriving DecidableEq, Repr

/-- Embeds `LoadedPlugin::cleanup` (`loader.rs` lines 104-109) at the
event level: the vtable's cleanup entry runs only when initialised. -/
def cleanupEvents (p : LoadedPlugin) (id : String) : List HostEvent :=
  if p.initialized then [HostEvent.cleanup id] else []

/-- Embeds `PluginHost::disable` (`host.rs` lines 414-424): remove from the
loaded map, run cleanup, clear the `enabled` flag.  Never fails, and does
not touch the service registry. -/
def disable (h : HostState) (pluginId : String) : Except HostError Unit × HostState :=
  let h1 :=
    match lookupLoaded h.loaded pluginId with
    | some _ => { h with loaded := removeLoaded h.loaded pluginId }
    | none => h
  (Except.ok (), { h1 with plugins := setEnabled h1.plugins pluginId false })

/-- The remove-cleanup-clear block shared by the dependent loop and the
tail of `disable_with_dependents` (`host.rs` lines 660-667 and 672-678),
with its cleanup events. -/
def disableOne (h : HostState) (pid : String) : HostState × List HostEvent :=
  match lookupLoaded h.loaded pid with
  | some lp =>
    ({ h with loaded := removeLoaded h.loaded pid,
              plugins := setEnabled h.plugins pid false },
      cleanupEvents lp pid)
  | none => ({ h with plugins := setEnabled h.plugins pid false }, [])

/-- The `for dep_id in dependents.into_iter().rev()` loop of
`disable_with_dependents`, applied to an already reversed list. -/
def disableList : HostState → List String → HostState × List HostEvent
  | h, [] => (h, [])
  | h, pid :: rest =>
    let step := disableOne h pid
    let next := disableList step.1 rest
    (next.1, step.2 ++ next.2)

/-- Embeds the `while let Some(id) = to_check.pop()` loop of
`PluginHost::find_dependents` (`host.rs` lines 689-703).  `to_check` is a
`Vec` used as a stack, embedded with its top at the head; a scan over the
inventory pushes every not-yet-checked plugin that lists the popped id,
recording it in `dependents` as well.  The checked set is returned
alongside for the invariant statements; fuel bounds the iteration count. -/
def findDependentsLoop (ps : Plugins) : Nat → List String → List String → List String →
    Option (List String × List String)
  | 0, _, _, _ => none
  | _ + 1, [], checked, dependents => some (dependents, checked)
  | f + 1, id :: rest, checked, dependents =>
    if id ∈ checked then findDependentsLoop ps f rest checked dependents
    else
      let checked1 := id :: checked
      let hits := (ps.filter (fun e =>
        e.2.manifest.compatibility.depends_on.contains id && ! checked1.contains e.1)).map
        Prod.fst
      findDependentsLoop ps f (hits.reverse ++ rest) checked1 (dependents ++ hits)

/-- Embeds `PluginHost::find_dependents` (`host.rs` lines 684-706). -/
def findDependents (ps : Plugins) (fuel : Nat) (pluginId : String) : Option (List String) :=
  (findDependentsLoop ps fuel [pluginId] [] []).map Prod.fst

/-- Embeds `PluginHost::disable_with_dependents` (`host.rs` lines 655-681):
disable the dependents in reverse discovery order, unregister the target's
services, then disable the target itself; the event list records the order
of the side effects. -/
def disableWithDependents (h : HostState) (fuel : Nat) (pluginId : String) :
    Option (Except HostError Unit × HostState × List HostEvent) :=
  match findDependents h.plugins fuel pluginId with
  | none => none
  | some dependents =>
    let step1 := disableList h dependents.reverse
    let h2 := { step1.1 with
      service_registry := unregisterProvider step1.1.service_registry pluginId }
    let step3 := disableOne h2 pluginId
    some (Except.ok (), step3.1,
      step1.2 ++ [HostEvent.unregisterProvider pluginId] ++ step3.2)

/-- Environment function standing for the native side of
`PluginLoader::load_and_init`: what loading and initialising the binary at
a path with a manifest yields. -/
structure LoadEnv where
  loadAndInit : FsPath → PluginManifest → Except HostError LoadedPlugin

/-- Rendering of paths used in the `LoadFailed` diagnostic. -/
def pathRepr (p : FsPath) : String :=
  String.intercalate "/" p

/-- Embeds `PluginHost::enable` (`host.rs` lines 375-411): no-op when
already loaded; `PluginNotFound` when absent from the inventory;
`LoadFailed` when the binary does not exist; otherwise load and
initialise, set the `enabled` flag and insert into the loaded map.  No
required-service verification happens on this path. -/
def enable (env : LoadEnv) (h : HostState) (pluginId : String) :
    Except HostError Unit × HostState :=
  if containsLoaded h.loaded pluginId then (Except.ok (), h)
  else
    match lookupPlugin h.plugins pluginId with
    | none => (Except.error (HostError.pluginNotFound pluginId), h)
    | some plugin =>
      if plugin.path ∉ h.fs then
        (Except.error (HostError.loadFailed
          ("Plugin binary not found: " ++ pathRepr plugin.path)), h)
      else
        match env.loadAndInit plugin.path plugin.manifest with
        | Except.error e => (Except.error e, h)
        | Except.ok loaded =>
          (Except.ok (), { h with plugins := setEnabled h.plugins pluginId true,
                                  loaded := h.loaded ++ [(pluginId, loaded)] })

/-- Embeds the `for req in &plugin.manifest.requires` loop of
`PluginHost::verify_required_services` (`host.rs` lines 626-649). -/
def verifyRequires (reg : Registry) : List ServiceRequirement → Except HostError Unit
  | [] => Except.ok ()
  | req :: rest =>
    if ¬ req.optional then
      match req.min_version with
      | some mvs =>
        match ServiceVersion.parse mvs with
        | none =>
          Except.error (HostError.serviceNotAvailable req.id
            ("Invalid version string: " ++ mvs))
        | some mv =>
          match lookupVersioned reg req.id mv with
          | Except.error e =>
            Except.error (HostError.serviceNotAvailable req.id e.message)
          | Except.ok _ => verifyRequires reg rest
      | none =>
        if (lookup reg req.id).isNone then
          Except.error (HostError.serviceNotAvailable req.id "Service not found")
        else verifyRequires reg rest
    else verifyRequires reg rest

/-- Embeds `PluginHost::verify_required_services` (`host.rs` lines
620-652). -/
def verifyRequiredServices (h : HostState) (pluginId : String) : Except HostError Unit :=
  match lookupPlugin h.plugins pluginId with
  | none => Except.error (HostError.pluginNotFound pluginId)
  | some plugin => verifyRequires h.service_registry plugin.manifest.requires

/-- Embeds `PluginHost::enable_single` (`host.rs` lines 576-617): like
`enable`, but verifying required services before loading. -/
def enableSingle (env : LoadEnv) (h : HostState) (pluginId : String) :
    Except HostError Unit × HostState :=
  if containsLoaded h.loaded pluginId then (Except.ok (), h)
  else
    match lookupPlugin h.plugins pluginId with
    | none => (Except.error (HostError.pluginNotFound pluginId), h)
    | some plugin =>
      if plugin.path ∉ h.fs then
        (Except.error (HostError.loadFailed
          ("Plugin binary not found: " ++ pathRepr plugin.path)), h)
      else
        match verifyRequiredServices h pluginId with
        | Except.error e => (Except.error e, h)
        | Except.ok _ =>
          match env.loadAndInit plugin.path plugin.manifest with
          | Except.error e => (Except.error e, h)
          | Except.ok loaded =>
            (Except.ok (), { h with plugins := setEnabled h.plugins pluginId true,
                                    loaded := h.loaded ++ [(pluginId, loaded)] })

/-- Three-way outcome of looking for and parsing `package.toml` /
`plugin.toml` at a plugin root during the scan (`host.rs` lines 149-167):
neither file present, parse failure (warn and skip), or a parsed
manifest. -/
inductive ManifestLookup where
  | missing
  | parseError (msg : String)
  | parsed (m : Manifest)
deriving DecidableEq, Repr

/-- On-disk state of one directory entry seen by `scan_installed`:
the entry path, whether it is a directory, the trimmed content of
`.version` when that file exists, the manifest outcome at the resolved
plugin root, and the files existing beneath it (for binary-path
resolution). -/
structure ScanEntry where
  path : FsPath
  isDir : Bool
  dotVersion : Option String
  manifestFile : ManifestLookup
  files : List FsPath
deriving DecidableEq, Repr

/-- Embeds `HashMap::insert` on the packages map (replace on duplicate). -/
def insertPackage (m : List (String × InstalledPackage)) (k : String)
    (v : InstalledPackage) : List (String × InstalledPackage) :=
  m.filter (fun e => ¬ e.1 == k) ++ [(k, v)]

/-- Embeds `HashMap::insert` on the plugins map (replace on duplicate). -/
def insertPlugin (m : Plugins) (k : String) (v : InstalledPlugin) : Plugins :=
  m.filter (fun e => ¬ e.1 == k) ++ [(k, v)]

/-- The two inventory maps rebuilt by a scan. -/
abbrev ScanMaps := List (String × InstalledPackage) × Plugins

/-- Per-entry body of the scan loop (`host.rs` lines 129-209): skip
non-directories, versioned roots with an empty `.version`, and missing or
unparsable manifests; otherwise insert the package and its plugin(s), with
binary paths resolved by `find_binary_path`. -/
def scanEntry (ext : String) (maps : ScanMaps) (entry : ScanEntry) : ScanMaps :=
  if ¬ entry.isDir then maps
  else
    let rootOpt : Option FsPath :=
      match entry.dotVersion with
      | some v => if v = "" then none else some (entry.path ++ [v])
      | none => some entry.path
    match rootOpt with
    | none => maps
    | some plugin_path =>
      match entry.manifestFile with
      | ManifestLookup.missing => maps
      | ManifestLookup.parseError _ => maps
      | ManifestLookup.parsed manifest =>
        let pkgs := insertPackage maps.1 manifest.idOf
          ⟨manifest, plugin_path, manifest.pluginIds⟩
        match manifest with
        | Manifest.single m =>
          let binary_path := findBinaryPath entry.files plugin_path m.binary ext
          (pkgs, insertPlugin maps.2 m.plugin.id ⟨m, binary_path, m.plugin.id, false⟩)
        | Manifest.package pm =>
          (pkgs, pm.plugins.foldl
            (fun acc m =>
              let plugin_dir := plugin_path ++ ["plugins", m.plugin.id]
              insertPlugin acc m.plugin.id
                ⟨m, findBinaryPath entry.files plugin_dir m.binary ext, pm.id, false⟩)
            maps.2)

/-- The `for entry in std::fs::read_dir(...)` loop of `scan_installed`:
each item may itself be an IO error, which aborts the scan via `?`,
leaving the maps as built so far. -/
def scanLoop (ext : String) : List (Except HostError ScanEntry) → ScanMaps →
    Except HostError Unit × ScanMaps
  | [], maps => (Except.ok (), maps)
  | Except.error e :: _, maps => (Except.error e, maps)
  | Except.ok entry :: rest, maps => scanLoop ext rest (scanEntry ext maps entry)

/-- Embeds `PluginHost::scan_installed` (`host.rs` lines 116-213): clear
both maps, return early when the plugins directory does not exist, then
fold the directory entries; `entries` is the outcome of `read_dir`. -/
def scanInstalled (h : HostState) (dirExists : Bool)
    (entries : Except HostError (List (Except HostError ScanEntry))) (ext : String) :
    Except HostError Unit × HostState :=
  let h0 := { h with packages := [], plugins := [] }
  if ¬ dirExists then (Except.ok (), h0)
  else
    match entries with
    | Except.error e => (Except.error e, h0)
    | Except.ok es =>
      let out := scanLoop ext es ([], [])
      (out.1, { h0 with packages := out.2.1, plugins := out.2.2 })

/-- Loaded plugin with no optional vtable entries, used by the concrete
host states. -/
def loadedW (id : String) : LoadedPlugin :=
  ⟨⟨none⟩, manifestW id [] [], true⟩

/-- Concrete host: one enabled plugin `p` that registered service `svc`. -/
def hostC3 : HostState :=
  { packages := [],
    plugins := [("p", ⟨manifestW "p" [] [], ["p"], "p", true⟩)],
    loaded := [("p", loadedW "p")],
    service_registry := [("svc", ⟨⟨"svc", ⟨1, 0, 0⟩, "p"⟩, ⟨"svc", 3⟩⟩)],
    fs := [] }

/-- The host `hostC3` after `disable_with_dependents("p")`. -/
def hostC3' : HostState :=
  { packages := [],
    plugins := [("p", ⟨manifestW "p" [] [], ["p"], "p", false⟩)],
    loaded := [],
    service_registry := [],
    fs := [] }

/-- Concrete host for the enable-path theorems: plugin `q` requires the
absent service `need.svc` non-optionally; its binary exists. -/
def hostC10 : HostState :=
  { packages := [],
    plugins := [("q", ⟨manifestW "q" [] [⟨"need.svc", none, false⟩], ["q", "q.so"], "q",
      false⟩)],
    loaded := [],
    service_registry := [],
    fs := [["q", "q.so"]] }

/-- Concrete loading environment: loading always succeeds. -/
def envW : LoadEnv :=
  ⟨fun _ _ => Except.ok (loadedW "q")⟩

/-- Concrete host for cascading disable: `A` loaded, `B` loaded and
depending on `A`. -/
def hostC6 : HostState :=
  { packages := [],
    plugins := [("A", ⟨manifestW "A" [] [], ["A"], "A", true⟩),
      ("B", ⟨manifestW "B" ["A"] [], ["B"], "B", true⟩)],
    loaded := [("A", loadedW "A"), ("B", loadedW "B")],
    service_registry := [],
    fs := [] }

/-- The host `hostC6` after `disable_with_dependents("A")`. -/
def hostC6' : HostState :=
  { packages := [],
    plugins := [("A", ⟨manifestW "A" [] [], ["A"], "A", false⟩),
      ("B", ⟨manifestW "B" ["A"] [], ["B"], "B", false⟩)],
    loaded := [],
    service_registry := [],
    fs := [] }

/-- Directory entry holding a valid single-plugin manifest `a`. -/
def entryA : ScanEntry :=
  { path := ["plugs", "a"], isDir := true, dotVersion := none,
    manifestFile := ManifestLookup.parsed (Manifest.single (manifestW "a" [] [])),
    files := [] }

/-- Directory entry holding a valid single-plugin manifest `b`. -/
def entryB : ScanEntry :=
  { path := ["plugs", "b"], isDir := true, dotVersion := none,
    manifestFile := ManifestLookup.parsed (Manifest.single (manifestW "b" [] [])),
    files := [] }

/-- Directory contents whose second entry fails with an IO error. -/
def entriesC4 : List (Except HostError ScanEntry) :=
  [Except.ok entryA, Except.error (HostError.ioError "io"), Except.ok entryB]

/-- Concrete pre-scan host: inventory holding package `old`. -/
def hostC4 : HostState :=
  { packages := [("old", ⟨Manifest.single (manifestW "old" [] []), ["plugs", "old"],
      ["old"]⟩)],
    plugins := [("old", ⟨manifestW "old" [] [], ["plugs", "old"], "old", true⟩)],
    loaded := [],
    service_registry := [],
    fs := [] }

/-- A second pre-scan host with a different inventory, for the
independence statement. -/
def hostC4b : HostState :=
  { packages := [],
    plugins := [],
    loaded := [],
    service_registry := [],
    fs := [] }

section RegistryTheorems

/-- C1: for a registered service with id `s` and stored version `p`,
`lookup_versioned s r` returns the stored handle iff `p.major = r.major`
and `(p.minor, p.patch) ≥ (r.minor, r.patch)` lexicographically; it
returns `NotFound` when `s` is absent, and `VersionMismatch` (carrying
both versions) when `s` is present but incompatible. -/
theorem lookup_versioned_spec (reg : Registry) (s : String) (r : ServiceVersion) :
    (findService reg s = none →
      lookupVersioned reg s r = Except.error (ServiceError.notFound s)) ∧
    (∀ entry, findService reg s = some entry →
      ((lookupVersioned reg s r = Except.ok entry.handle ↔
          (entry.descriptor.version.major = r.major ∧
            (r.minor < entry.descriptor.version.minor ∨
              (entry.descriptor.version.minor = r.minor ∧
                r.patch ≤ entry.descriptor.version.patch)))) ∧
        (¬ (entry.descriptor.version.major = r.major ∧
            (r.minor < entry.descriptor.version.minor ∨
              (entry.descriptor.version.minor = r.minor ∧
                r.patch ≤ entry.descriptor.version.patch))) →
          lookupVersioned reg s r =
            Except.error
              (ServiceError.versionMismatch s r entry.descriptor.version)))) := by
  constructor
  · intro hnone
    simp [lookupVersioned, hnone]
  · intro entry hsome
    have hcompat :
        (entry.descriptor.version.isCompatibleWith r = true) ↔
          (entry.descriptor.version.major = r.major ∧
            (r.minor < entry.descriptor.version.minor ∨
              (entry.descriptor.version.minor = r.minor ∧
                r.patch ≤ entry.descriptor.version.patch))) := by
      simp [ServiceVersion.isCompatibleWith]
    constructor
    · constructor
      · intro hok
        rw [← hcompat]
        by_contra hbad
        simp [lookupVersioned, hsome, hbad] at hok
      · intro hprop
        have hc := hcompat.mpr hprop
        simp [lookupVersioned, hsome, hc]
    · intro hprop
      have hc : ¬ entry.descriptor.version.isCompatibleWith r = true := by
        rw [hcompat]; exact hprop
      simp [lookupVersioned, hsome, hc]

/-- Witness for C1 at a concrete registry: compatible lookup succeeds,
absent id yields `NotFound`, larger requested minor yields
`VersionMismatch`. -/
theorem lookup_versioned_spec_witness :
    lookupVersioned regW "svc" ⟨1, 0, 0⟩ = Except.ok ⟨"svc", 7⟩ ∧
    lookupVersioned regW "nope" ⟨1, 0, 0⟩ = Except.error (ServiceError.notFound "nope") ∧
    lookupVersioned regW "svc" ⟨1, 3, 0⟩ =
      Except.error (ServiceError.versionMismatch "svc" ⟨1, 3, 0⟩ ⟨1, 2, 0⟩) := by
  refine ⟨?_, ?_, ?_⟩
  · exact ((lookup_versioned_spec regW "svc" ⟨1, 0, 0⟩).2 ⟨⟨"svc", ⟨1, 2, 0⟩, "prov"⟩, ⟨"svc", 7⟩⟩
      (by decide)).1.mpr (by decide)
  · exact (lookup_versioned_spec regW "nope" ⟨1, 0, 0⟩).1 (by decide)
  · exact ((lookup_versioned_spec regW "svc" ⟨1, 3, 0⟩).2 ⟨⟨"svc", ⟨1, 2, 0⟩, "prov"⟩, ⟨"svc", 7⟩⟩
      (by decide)).2 (by decide)

/-- C5: once an id is registered, a second `register` with the same id
fails with `AlreadyRegistered`, the stored entry is not overwritten, and a
lookup of the id still returns the first handle. -/
theorem register_duplicate_fails (reg reg1 : Registry) (d1 d2 : ServiceDescriptor)
    (h1 h2 : ServiceHandle)
    (hreg : register reg d1 h1 = Except.ok reg1)
    (hid : d2.id = d1.id) :
    register reg1 d2 h2 = Except.error (ServiceError.alreadyRegistered d1.id) ∧
    lookup reg1 d1.id = some h1 := by
  unfold register at hreg
  by_cases hc : containsService reg d1.id
  · simp [hc] at hreg
  · simp [hc] at hreg
    have hfind1 : findService reg1 d1.id = some ⟨d1, h1⟩ := by
      have hnone : findService reg d1.id = none := by
        unfold containsService at hc
        exact Option.not_isSome_iff_eq_none.mp hc
      unfold findService at hnone ⊢
      rw [← hreg, List.find?_append]
      have hnone2 : List.find? (fun e => e.1 == d1.id) reg = none := by
        by_contra hx
        rcases Option.ne_none_iff_exists.mp hx with ⟨v, hv⟩
        rw [← hv] at hnone
        simp at hnone
      rw [hnone2]
      simp
    constructor
    · have hc1 : containsService reg1 d1.id = true := by
        unfold containsService
        rw [hfind1]
        rfl
      simp [register, hid, hc1]
    · simp [lookup, hfind1]

/-- Witness for C5: registering `svc` twice on an initially empty registry
fails the second time and keeps the first handle. -/
theorem register_duplicate_fails_witness :
    register regW ⟨"svc", ⟨1, 2, 0⟩, "prov"⟩ ⟨"svc", 9⟩ =
      Except.error (ServiceError.alreadyRegistered "svc") ∧
    lookup regW "svc" = some ⟨"svc", 7⟩ :=
  register_duplicate_fails [] regW ⟨"svc", ⟨1, 2, 0⟩, "prov"⟩ ⟨"svc", ⟨1, 2, 0⟩, "prov"⟩
    ⟨"svc", 7⟩ ⟨"svc", 9⟩ rfl rfl

end RegistryTheorems

section LoaderTheorems

/-- Characterisation of the variant loop through `List.find?`. -/
theorem firstExisting_eq_find (fs : List FsPath) (dir : FsPath) (vs : List String) :
    firstExisting fs dir vs =
      (vs.find? (fun v => decide (dir ++ [v] ∈ fs))).map (fun v => dir ++ [v]) := by
  induction vs with
  | nil => rfl
  | cons v rest ih =>
    by_cases h : dir ++ [v] ∈ fs
    · simp [firstExisting, h, List.find?]
    · simp [firstExisting, h, List.find?, ih]

/-- C8: binary path resolution tries `N.ext`, `libN.ext` and the
lib-stripped name in that order and returns the first variant that exists
(in particular `N.ext` wins whenever it exists, even if `libN.ext` also
exists); when no variant exists it returns the path of the first
variant. -/
theorem find_binary_path_variants (fs : List FsPath) (dir : FsPath) (b : BinaryInfo)
    (ext : String) :
    (findBinaryPath fs dir b ext =
      match
        [b.name ++ "." ++ ext, "lib" ++ b.name ++ "." ++ ext,
          stripLib b.name ++ "." ++ ext].find? (fun v => decide (dir ++ [v] ∈ fs))
      with
      | some v => dir ++ [v]
      | none => dir ++ [b.name ++ "." ++ ext]) ∧
    (dir ++ [b.name ++ "." ++ ext] ∈ fs →
      findBinaryPath fs dir b ext = dir ++ [b.name ++ "." ++ ext]) := by
  have hvar : binaryVariants b ext =
      [b.name ++ "." ++ ext, "lib" ++ b.name ++ "." ++ ext,
        stripLib b.name ++ "." ++ ext] := rfl
  have key : findBinaryPath fs dir b ext =
      match firstExisting fs dir (binaryVariants b ext) with
      | some p => p
      | none => dir ++ [(binaryVariants b ext).headI] := rfl
  constructor
  · rw [key, hvar, firstExisting_eq_find]
    cases hfind : [b.name ++ "." ++ ext, "lib" ++ b.name ++ "." ++ ext,
        stripLib b.name ++ "." ++ ext].find? (fun v => decide (dir ++ [v] ∈ fs)) with
    | none => simp [List.headI]
    | some v => simp
  · intro hmem
    rw [key, hvar, firstExisting_eq_find]
    simp [List.find?, hmem]

/-- Witness for C8: with both `a.so` and `liba.so` present, resolution for
binary name `a` picks `a.so`. -/
theorem find_binary_path_variants_witness :
    findBinaryPath [["plug", "a.so"], ["plug", "liba.so"]] ["plug"] ⟨"a"⟩ "so" =
      ["plug", "a.so"] :=
  (find_binary_path_variants [["plug", "a.so"], ["plug", "liba.so"]] ["plug"] ⟨"a"⟩ "so").2
    (by decide)

/-- C9: `send_message` on a loaded plugin errors with `NotEnabled` when the
plugin is not initialised; when initialised it forwards to the vtable's
`handle_message` entry if present, returning the plugin's string on
success and `InitFailed` with the plugin's error message on failure, and
returns the empty string when the entry is absent. -/
theorem send_message_spec (p : LoadedPlugin) (msgType msgData : String) :
    (p.initialized = false →
      p.sendMessage msgType msgData =
        Except.error (HostError.notEnabled p.manifest.plugin.id)) ∧
    (p.initialized = true →
      (∀ handler, p.vtable.handle_message = some handler →
        (∀ s, handler msgType msgData = Except.ok s →
          p.sendMessage msgType msgData = Except.ok s) ∧
        (∀ e, handler msgType msgData = Except.error e →
          p.sendMessage msgType msgData =
            Except.error (HostError.initFailed e.message))) ∧
      (p.vtable.handle_message = none → p.sendMessage msgType msgData = Except.ok "")) := by
  refine ⟨?_, ?_⟩
  · intro hinit
    simp [LoadedPlugin.sendMessage, hinit]
  · intro hinit
    refine ⟨?_, ?_⟩
    · intro handler hsome
      refine ⟨?_, ?_⟩
      · intro s hs
        simp [LoadedPlugin.sendMessage, hinit, hsome, hs]
      · intro e he
        simp [LoadedPlugin.sendMessage, hinit, hsome, he]
    · intro hnone
      simp [LoadedPlugin.sendMessage, hinit, hnone]

/-- Witness for C9, covering all four behaviours on concrete plugins: not
initialised, handler success, handler failure, and absent handler. -/
theorem send_message_spec_witness :
    LoadedPlugin.sendMessage ⟨⟨none⟩, manifestW "p" [] [], false⟩ "t" "d" =
      Except.error (HostError.notEnabled "p") ∧
    LoadedPlugin.sendMessage
        ⟨⟨some (fun t d => Except.ok (t ++ d))⟩, manifestW "p" [] [], true⟩ "t" "d" =
      Except.ok "td" ∧
    LoadedPlugin.sendMessage
        ⟨⟨some (fun _ _ => Except.error (ServiceError.internal "boom"))⟩,
          manifestW "p" [] [], true⟩ "t" "d" =
      Except.error (HostError.initFailed "boom") ∧
    LoadedPlugin.sendMessage ⟨⟨none⟩, manifestW "p" [] [], true⟩ "t" "d" =
      Except.ok "" := by
  refine ⟨?_, ?_, ?_, ?_⟩
  · exact (send_message_spec ⟨⟨none⟩, manifestW "p" [] [], false⟩ "t" "d").1 rfl
  · exact (((send_message_spec ⟨⟨some (fun t d => Except.ok (t ++ d))⟩,
      manifestW "p" [] [], true⟩ "t" "d").2 rfl).1 (fun t d => Except.ok (t ++ d)) rfl).1
      "td" rfl
  · exact (((send_message_spec ⟨⟨some (fun _ _ => Except.error (ServiceError.internal "boom"))⟩,
      manifestW "p" [] [], true⟩ "t" "d").2 rfl).1
      (fun _ _ => Except.error (ServiceError.internal "boom")) rfl).2
      (ServiceError.internal "boom") rfl
  · exact (((send_message_spec ⟨⟨none⟩, manifestW "p" [] [], true⟩ "t" "d").2 rfl).2 rfl)

end LoaderTheorems

section ResolverTheorems

/-- Edges coincide with membership in the direct-dependency list. -/
theorem depEdge_iff_mem_depsOf (ps : Plugins) (x d : String) :
    DepEdge ps x d ↔ d ∈ depsOf ps x := by
  unfold DepEdge depsOf
  cases h : lookupPlugin ps x with
  | none => simp [h]
  | some p => simp [h]

/-- Unfolding of the dependency loop on the empty list. -/
theorem visitFold_nil (ps : Plugins) (f : Nat) (acc : Option (Except HostError VisitState)) :
    visitFold ps f [] acc = acc := rfl

/-- Unfolding of the dependency loop on a cons cell. -/
theorem visitFold_cons (ps : Plugins) (f : Nat) (d : String) (ds : List String)
    (acc : Option (Except HostError VisitState)) :
    visitFold ps f (d :: ds) acc =
      visitFold ps f ds
        (match acc with
          | some (Except.ok st) =>
            if ¬ containsPlugin ps d then
              some (Except.error (HostError.dependencyNotFound d))
            else visitDeps ps f d st
          | other => other) := rfl

/-- Unfolding of the dependency loop on a cons cell from a live
accumulator. -/
theorem visitFold_cons_ok (ps : Plugins) (f : Nat) (d : String) (ds : List String)
    (st : VisitState) :
    visitFold ps f (d :: ds) (some (Except.ok st)) =
      visitFold ps f ds
        (if ¬ containsPlugin ps d then some (Except.error (HostError.dependencyNotFound d))
          else visitDeps ps f d st) := rfl

/-- The loop leaves an error or fuel exhaustion unchanged, matching the
`?` short-circuit of the Rust loop. -/
theorem visitFold_frozen (ps : Plugins) (f : Nat) :
    ∀ (ds : List String) (acc : Option (Except HostError VisitState)),
      (∀ st, acc ≠ some (Except.ok st)) → visitFold ps f ds acc = acc := by
  intro ds
  induction ds with
  | nil => intro acc _; rfl
  | cons d ds ih =>
    intro acc h
    cases acc with
    | none => exact ih none h
    | some r =>
      cases r with
      | error e => exact ih (some (Except.error e)) h
      | ok st => exact absurd rfl (h st)

/-- Unfolding of `visitDeps` at positive fuel, phrased with `visitFold`. -/
theorem visitDeps_succ (ps : Plugins) (f : Nat) (id : String) (s : VisitState) :
    visitDeps ps (f + 1) id s =
      if id ∈ s.visited then some (Except.ok s)
      else if id ∈ s.inProgress then
        some (Except.error (HostError.circularDependency id))
      else
        match
          visitFold ps f (depsOf ps id)
            (some (Except.ok ⟨s.visited, id :: s.inProgress, s.result⟩))
        with
        | none => none
        | some (Except.error e) => some (Except.error e)
        | some (Except.ok s2) =>
          some (Except.ok ⟨id :: s2.visited, s2.inProgress.erase id, s2.result ++ [id]⟩) :=
  rfl

/-- Appending a fresh element keeps a list duplicate-free. -/
theorem nodup_append_single {l : List String} {a : String} (hl : l.Nodup) (ha : a ∉ l) :
    (l ++ [a]).Nodup := by
  rw [show l ++ [a] = l ++ a :: [] from rfl, List.nodup_middle]
  simp [List.nodup_cons, ha, hl]

/-- Loop half of the success postcondition, assuming it for the recursive
calls at the loop's fuel. -/
theorem visitFold_ok_of (ps : Plugins) (f : Nat)
    (IH : ∀ id s s', visitDeps ps f id s = some (Except.ok s') → VisitInv ps s →
      DFSOk ps s s' id) :
    ∀ (deps : List String) (s s' : VisitState),
      visitFold ps f deps (some (Except.ok s)) = some (Except.ok s') →
      VisitInv ps s → DFSFoldOk ps s s' deps := by
  intro deps
  induction deps with
  | nil =>
    intro s s' heq hinv
    rw [visitFold_nil] at heq
    obtain rfl : s = s' := by
      injection heq with h
      injection h
    exact ⟨hinv, rfl, ⟨[], by simp⟩, by simp, fun x hx => hx⟩
  | cons d ds ih =>
    intro s s' heq hinv
    rw [visitFold_cons] at heq
    by_cases hc : containsPlugin ps d
    · have heq2 : visitFold ps f ds (visitDeps ps f d s) = some (Except.ok s') := by
        simpa [hc] using heq
      cases hv : visitDeps ps f d s with
      | none =>
        rw [hv, visitFold_frozen ps f ds none (by simp)] at heq2
        cases heq2
      | some r =>
        cases r with
        | error e =>
          rw [hv, visitFold_frozen ps f ds (some (Except.error e)) (by simp)] at heq2
          cases heq2
        | ok s1 =>
          rw [hv] at heq2
          have h1 := IH d s s1 hv hinv
          have h2 := ih s1 s' heq2 h1.inv
          refine ⟨h2.inv, by rw [h2.inprog_eq, h1.inprog_eq], ?_, ?_, ?_⟩
          · obtain ⟨t1, ht1⟩ := h1.growth
            obtain ⟨t2, ht2⟩ := h2.growth
            exact ⟨t1 ++ t2, by rw [ht2, ht1, List.append_assoc]⟩
          · intro d' hd'
            rcases List.mem_cons.mp hd' with hd' | hd'
            · exact hd' ▸ h2.visited_mono d h1.visited_id
            · exact h2.visited_deps d' hd'
          · exact fun x hx => h2.visited_mono x (h1.visited_mono x hx)
    · have heq2 : visitFold ps f ds
          (some (Except.error (HostError.dependencyNotFound d))) = some (Except.ok s') := by
        simpa [hc] using heq
      rw [visitFold_frozen ps f ds _ (by simp)] at heq2
      cases heq2

/-- Success postcondition of `visit_deps`: the invariant is preserved, the
`in_progress` set is restored, `result` only grows, the visited id ends up
in the order, and when it was not yet visited it is the last id pushed. -/
theorem visitDeps_ok_inv (ps : Plugins) :
    ∀ (f : Nat) (id : String) (s s' : VisitState),
      visitDeps ps f id s = some (Except.ok s') → VisitInv ps s → DFSOk ps s s' id := by
  intro f
  induction f with
  | zero =>
    intro id s s' heq
    cases heq
  | succ f ihf =>
    intro id s s' heq hinv
    rw [visitDeps_succ] at heq
    by_cases hvis : id ∈ s.visited
    · rw [if_pos hvis] at heq
      obtain rfl : s = s' := by
        injection heq with h
        injection h
      exact ⟨hinv, rfl, ⟨[], by simp⟩, hvis, fun x hx => hx, fun hcon => absurd hvis hcon⟩
    · by_cases hprog : id ∈ s.inProgress
      · rw [if_neg hvis, if_pos hprog] at heq
        injection heq with h
        cases h
      · rw [if_neg hvis, if_neg hprog] at heq
        have hinv1 : VisitInv ps ⟨s.visited, id :: s.inProgress, s.result⟩ := by
          refine ⟨hinv.mem_iff, hinv.nodupRes, ?_, ?_, hinv.respects⟩
          · exact List.nodup_cons.mpr ⟨hprog, hinv.nodupInProg⟩
          · intro x hx
            rcases List.mem_cons.mp hx with hx | hx
            · exact hx ▸ hvis
            · exact hinv.disj x hx
        cases hf : visitFold ps f (depsOf ps id)
            (some (Except.ok ⟨s.visited, id :: s.inProgress, s.result⟩)) with
        | none => rw [hf] at heq; cases heq
        | some r =>
          cases r with
          | error e => rw [hf] at heq; injection heq with h; cases h
          | ok s2 =>
            rw [hf] at heq
            obtain rfl : (⟨id :: s2.visited, s2.inProgress.erase id, s2.result ++ [id]⟩ :
                VisitState) = s' := by
              injection heq with h
              injection h
            have hfold := visitFold_ok_of ps f ihf (depsOf ps id)
              ⟨s.visited, id :: s.inProgress, s.result⟩ s2 hf hinv1
            have hprog2 : s2.inProgress = id :: s.inProgress := hfold.inprog_eq
            have herase : s2.inProgress.erase id = s.inProgress := by
              rw [hprog2]
              exact List.erase_cons_head id s.inProgress
            have hidin2 : id ∈ s2.inProgress := by
              rw [hprog2]; exact List.mem_cons_self id s.inProgress
            have hidnotvis2 : id ∉ s2.visited := hfold.inv.disj id hidin2
            have hidnotres2 : id ∉ s2.result := fun hc =>
              hidnotvis2 ((hfold.inv.mem_iff id).mpr hc)
            obtain ⟨t, ht⟩ := hfold.growth
            refine ⟨?_, herase, ⟨t ++ [id], by simp [ht]⟩, List.mem_cons_self id _,
              ?_, fun _ => ⟨t, by simp [ht]⟩⟩
            · refine ⟨?_, ?_, ?_, ?_, ?_⟩
              · intro x
                simp only [List.mem_cons, List.mem_append, List.mem_singleton]
                rw [hfold.inv.mem_iff x]
                tauto
              · exact nodup_append_single hfold.inv.nodupRes hidnotres2
              · rw [herase]; exact hinv.nodupInProg
              · intro x hx
                rw [herase] at hx
                have hxid : x ≠ id := fun hc => hprog (hc ▸ hx)
                have hx2 : x ∈ s2.inProgress := by
                  rw [hprog2]; exact List.mem_cons_of_mem id hx
                have := hfold.inv.disj x hx2
                simp only [List.mem_cons]
                tauto
              · intro x d hx hedge
                rcases List.mem_append.mp hx with hxR | hxid
                · obtain ⟨hdR, hidx⟩ := hfold.inv.respects x d hxR hedge
                  refine ⟨List.mem_append.mpr (Or.inl hdR), ?_⟩
                  rw [List.indexOf_append_of_mem hdR, List.indexOf_append_of_mem hxR]
                  exact hidx
                · have hxid' : x = id := by simpa using hxid
                  subst hxid'
                  have hd : d ∈ depsOf ps x := (depEdge_iff_mem_depsOf ps x d).mp hedge
                  have hdvis : d ∈ s2.visited := hfold.visited_deps d hd
                  have hdR : d ∈ s2.result := (hfold.inv.mem_iff d).mp hdvis
                  refine ⟨List.mem_append.mpr (Or.inl hdR), ?_⟩
                  rw [List.indexOf_append_of_mem hdR,
                    List.indexOf_append_of_not_mem hidnotres2]
                  have h1 : s2.result.indexOf d < s2.result.length :=
                    List.indexOf_lt_length.mpr hdR
                  simp [List.indexOf_cons_self]
                  omega
            · intro x hx
              exact List.mem_cons_of_mem id (hfold.visited_mono x hx)

/-- Success postcondition of the dependency loop, closed form. -/
theorem visitFold_ok_inv (ps : Plugins) (f : Nat) :
    ∀ (deps : List String) (s s' : VisitState),
      visitFold ps f deps (some (Except.ok s)) = some (Except.ok s') →
      VisitInv ps s → DFSFoldOk ps s s' deps :=
  visitFold_ok_of ps f (visitDeps_ok_inv ps f)

/-- Pushing a fresh id onto `in_progress` preserves the DFS invariant. -/
theorem visitInv_push (ps : Plugins) {s : VisitState} (hinv : VisitInv ps s) {id : String}
    (hvis : id ∉ s.visited) (hprog : id ∉ s.inProgress) :
    VisitInv ps ⟨s.visited, id :: s.inProgress, s.result⟩ := by
  refine ⟨hinv.mem_iff, hinv.nodupRes, ?_, ?_, hinv.respects⟩
  · exact List.nodup_cons.mpr ⟨hprog, hinv.nodupInProg⟩
  · intro x hx
    rcases List.mem_cons.mp hx with hx | hx
    · exact hx ▸ hvis
    · exact hinv.disj x hx

/-- A successful inventory lookup puts the id among the map's keys. -/
theorem mem_keys_of_lookupPlugin {ps : Plugins} {id : String} {p : InstalledPlugin}
    (h : lookupPlugin ps id = some p) : id ∈ ps.map Prod.fst := by
  unfold lookupPlugin at h
  cases hf : ps.find? (fun e => e.1 == id) with
  | none => rw [hf] at h; cases h
  | some e =>
    have hmem := List.mem_of_find?_eq_some hf
    have hpred : e.1 = id := by simpa using List.find?_some hf
    exact List.mem_map.mpr ⟨e, hmem, hpred⟩

/-- A duplicate-free `in_progress` contained in the inventory keys is no
longer than the inventory. -/
theorem inprog_length_le (ps : Plugins) {l : List String} (hnd : l.Nodup)
    (hsub : ∀ y ∈ l, y ∈ ps.map Prod.fst) : l.length ≤ ps.length := by
  have h1 : l.length = l.toFinset.card := (List.toFinset_card_of_nodup hnd).symm
  have h2 : l.toFinset ⊆ (ps.map Prod.fst).toFinset := by
    intro a ha
    exact List.mem_toFinset.mpr (hsub a (List.mem_toFinset.mp ha))
  have h3 := Finset.card_le_card h2
  have h4 : (ps.map Prod.fst).toFinset.card ≤ (ps.map Prod.fst).length :=
    (ps.map Prod.fst).toFinset_card_le
  rw [List.length_map] at h4
  omega

/-- Loop half of the fuel-sufficiency argument. -/
theorem visitFold_total_of (ps : Plugins) (f : Nat)
    (IHtot : ∀ id s, VisitInv ps s → (∀ y ∈ s.inProgress, y ∈ ps.map Prod.fst) →
      ps.length + 1 ≤ f + s.inProgress.length → visitDeps ps f id s ≠ none) :
    ∀ (deps : List String) (s : VisitState), VisitInv ps s →
      (∀ y ∈ s.inProgress, y ∈ ps.map Prod.fst) →
      ps.length + 1 ≤ f + s.inProgress.length →
      visitFold ps f deps (some (Except.ok s)) ≠ none := by
  intro deps
  induction deps with
  | nil =>
    intro s _ _ _
    rw [visitFold_nil]
    simp
  | cons d ds ih =>
    intro s hinv hsub hfuel
    rw [visitFold_cons_ok]
    by_cases hc : containsPlugin ps d
    · cases hv : visitDeps ps f d s with
      | none => exact absurd hv (IHtot d s hinv hsub hfuel)
      | some r =>
        cases r with
        | error e =>
          rw [if_neg (not_not_intro hc),
            visitFold_frozen ps f ds (some (Except.error e)) (by simp)]
          simp
        | ok s1 =>
          have h1 := visitDeps_ok_inv ps f d s s1 hv hinv
          have hsub1 : ∀ y ∈ s1.inProgress, y ∈ ps.map Prod.fst := by
            rw [h1.inprog_eq]; exact hsub
          have hfuel1 : ps.length + 1 ≤ f + s1.inProgress.length := by
            rw [h1.inprog_eq]; exact hfuel
          rw [if_neg (not_not_intro hc)]
          exact ih s1 h1.inv hsub1 hfuel1
    · rw [if_pos hc,
        visitFold_frozen ps f ds (some (Except.error (HostError.dependencyNotFound d)))
          (by simp)]
      simp

/-- Fuel sufficiency: from a state whose `in_progress` ids all live in the
inventory, fuel `ps.length + 1 - in_progress.length` never runs out; in
particular `ps.length + 1` suffices from the empty state. -/
theorem visitDeps_total (ps : Plugins) :
    ∀ (f : Nat) (id : String) (s : VisitState), VisitInv ps s →
      (∀ y ∈ s.inProgress, y ∈ ps.map Prod.fst) →
      ps.length + 1 ≤ f + s.inProgress.length →
      visitDeps ps f id s ≠ none := by
  intro f
  induction f with
  | zero =>
    intro id s hinv hsub hfuel
    exfalso
    have := inprog_length_le ps hinv.nodupInProg hsub
    omega
  | succ f ihf =>
    intro id s hinv hsub hfuel
    rw [visitDeps_succ]
    by_cases hvis : id ∈ s.visited
    · simp [hvis]
    · by_cases hprog : id ∈ s.inProgress
      · simp [hvis, hprog]
      · rw [if_neg hvis, if_neg hprog]
        cases hl : lookupPlugin ps id with
        | none =>
          have hdeps : depsOf ps id = [] := by simp [depsOf, hl]
          rw [hdeps, visitFold_nil]
          simp
        | some p =>
          have hid : id ∈ ps.map Prod.fst := mem_keys_of_lookupPlugin hl
          have hinv1 := visitInv_push ps hinv hvis hprog
          have hsub1 : ∀ y ∈ (⟨s.visited, id :: s.inProgress, s.result⟩ :
              VisitState).inProgress, y ∈ ps.map Prod.fst := by
            intro y hy
            rcases List.mem_cons.mp hy with hy | hy
            · exact hy ▸ hid
            · exact hsub y hy
          have hfuel1 : ps.length + 1 ≤
              f + (⟨s.visited, id :: s.inProgress, s.result⟩ : VisitState).inProgress.length := by
            simp only [List.length_cons]
            omega
          have hfold := visitFold_total_of ps f ihf (depsOf ps id)
            ⟨s.visited, id :: s.inProgress, s.result⟩ hinv1 hsub1 hfuel1
          cases hf : visitFold ps f (depsOf ps id)
              (some (Except.ok ⟨s.visited, id :: s.inProgress, s.result⟩)) with
          | none => exact absurd hf hfold
          | some r =>
            cases r with
            | error e => simp
            | ok s2 => simp

/-- Ids with outgoing dependency edges are present in the inventory. -/
theorem lookup_some_of_mem_depsOf {ps : Plugins} {x d : String} (hd : d ∈ depsOf ps x) :
    ∃ p, lookupPlugin ps x = some p := by
  unfold depsOf at hd
  cases h : lookupPlugin ps x with
  | none => rw [h] at hd; cases hd
  | some p => exact ⟨p, rfl⟩

/-- An absent id has `lookupPlugin` equal to `none`. -/
theorem lookup_none_of_not_contains {ps : Plugins} {d : String}
    (hc : ¬ containsPlugin ps d = true) : lookupPlugin ps d = none := by
  unfold containsPlugin at hc
  exact Option.not_isSome_iff_eq_none.mp (by simpa using hc)

/-- Loop half of the error characterisation: an error out of the loop is a
circular-dependency report of a reachable id lying on a dependency cycle,
or a missing-dependency report of a reachable absent id. -/
theorem visitFold_err_of (ps : Plugins) (root : String) (f : Nat)
    (IH : ∀ id s e, visitDeps ps f id s = some (Except.error e) → VisitInv ps s →
      Reaches ps root id →
      (∀ y ∈ s.inProgress, Relation.TransGen (DepEdge ps) y id ∧ Reaches ps root y) →
      (∃ i, e = HostError.circularDependency i ∧ Reaches ps root i ∧
        Relation.TransGen (DepEdge ps) i i) ∨
      (∃ d, e = HostError.dependencyNotFound d ∧ Reaches ps root d ∧
        lookupPlugin ps d = none)) :
    ∀ (deps : List String) (s : VisitState) (e : HostError),
      visitFold ps f deps (some (Except.ok s)) = some (Except.error e) → VisitInv ps s →
      (∀ d ∈ deps, Reaches ps root d ∧
        ∀ y ∈ s.inProgress, Relation.TransGen (DepEdge ps) y d ∧ Reaches ps root y) →
      (∃ i, e = HostError.circularDependency i ∧ Reaches ps root i ∧
        Relation.TransGen (DepEdge ps) i i) ∨
      (∃ d, e = HostError.dependencyNotFound d ∧ Reaches ps root d ∧
        lookupPlugin ps d = none) := by
  intro deps
  induction deps with
  | nil =>
    intro s e heq _ _
    rw [visitFold_nil] at heq
    simp at heq
  | cons d ds ih =>
    intro s e heq hinv hconds
    rw [visitFold_cons_ok] at heq
    by_cases hc : containsPlugin ps d
    · rw [if_neg (not_not_intro hc)] at heq
      cases hv : visitDeps ps f d s with
      | none =>
        rw [hv, visitFold_frozen ps f ds none (by simp)] at heq
        cases heq
      | some r =>
        cases r with
        | error e' =>
          rw [hv, visitFold_frozen ps f ds (some (Except.error e')) (by simp)] at heq
          obtain rfl : e' = e := Except.error.inj (Option.some.inj heq)
          exact IH d s e' hv hinv (hconds d (List.mem_cons_self d ds)).1
            (hconds d (List.mem_cons_self d ds)).2
        | ok s1 =>
          rw [hv] at heq
          have h1 := visitDeps_ok_inv ps f d s s1 hv hinv
          refine ih s1 e heq h1.inv ?_
          intro d' hd'
          have hcond := hconds d' (List.mem_cons_of_mem d hd')
          refine ⟨hcond.1, ?_⟩
          rw [h1.inprog_eq]
          exact hcond.2
    · rw [if_pos hc,
        visitFold_frozen ps f ds (some (Except.error (HostError.dependencyNotFound d)))
          (by simp)] at heq
      obtain rfl : HostError.dependencyNotFound d = e :=
        Except.error.inj (Option.some.inj heq)
      exact Or.inr ⟨d, rfl, (hconds d (List.mem_cons_self d ds)).1,
        lookup_none_of_not_contains hc⟩

/-- Error characterisation of `visit_deps`: relative to a root all of whose
`in_progress` ancestors strictly reach the current id, any error is a
`CircularDependency` naming a reachable id on a dependency cycle, or a
`DependencyNotFound` naming a reachable id absent from the inventory. -/
theorem visitDeps_err_inv (ps : Plugins) (root : String) :
    ∀ (f : Nat) (id : String) (s : VisitState) (e : HostError),
      visitDeps ps f id s = some (Except.error e) → VisitInv ps s →
      Reaches ps root id →
      (∀ y ∈ s.inProgress, Relation.TransGen (DepEdge ps) y id ∧ Reaches ps root y) →
      (∃ i, e = HostError.circularDependency i ∧ Reaches ps root i ∧
        Relation.TransGen (DepEdge ps) i i) ∨
      (∃ d, e = HostError.dependencyNotFound d ∧ Reaches ps root d ∧
        lookupPlugin ps d = none) := by
  intro f
  induction f with
  | zero =>
    intro id s e heq
    cases heq
  | succ f ihf =>
    intro id s e heq hinv hroot hin
    rw [visitDeps_succ] at heq
    by_cases hvis : id ∈ s.visited
    · rw [if_pos hvis] at heq
      simp at heq
    · by_cases hprog : id ∈ s.inProgress
      · rw [if_neg hvis, if_pos hprog] at heq
        obtain rfl : HostError.circularDependency id = e :=
          Except.error.inj (Option.some.inj heq)
        exact Or.inl ⟨id, rfl, hroot, (hin id hprog).1⟩
      · rw [if_neg hvis, if_neg hprog] at heq
        have hinv1 := visitInv_push ps hinv hvis hprog
        cases hf : visitFold ps f (depsOf ps id)
            (some (Except.ok ⟨s.visited, id :: s.inProgress, s.result⟩)) with
        | none => rw [hf] at heq; cases heq
        | some r =>
          cases r with
          | ok s2 =>
            rw [hf] at heq
            simp at heq
          | error e' =>
            rw [hf] at heq
            obtain rfl : e' = e := Except.error.inj (Option.some.inj heq)
            refine visitFold_err_of ps root f ihf (depsOf ps id)
              ⟨s.visited, id :: s.inProgress, s.result⟩ e' hf hinv1 ?_
            intro d hd
            have hedge : DepEdge ps id d := (depEdge_iff_mem_depsOf ps id d).mpr hd
            refine ⟨Relation.ReflTransGen.tail hroot hedge, ?_⟩
            intro y hy
            rcases List.mem_cons.mp hy with hy | hy
            · subst hy
              exact ⟨Relation.TransGen.single hedge, hroot⟩
            · have := hin y hy
              exact ⟨Relation.TransGen.tail this.1 hedge, this.2⟩

/-- C2: for a plugin `P` present in the inventory whose reachable
dependency graph is acyclic and fully present, the resolver produces a
load order (at fuel `ps.length + 1`) that has no duplicates, places every
transitive dependency of a plugin strictly before that plugin, and ends
with `P` itself. -/
theorem resolve_load_order_correct (ps : Plugins) (P : String)
    (hP : containsPlugin ps P = true)
    (hpresent : ∀ x, Reaches ps P x → containsPlugin ps x = true)
    (hacyc : ∀ x, Reaches ps P x → ¬ Relation.TransGen (DepEdge ps) x x) :
    ∃ order, resolveLoadOrder ps (ps.length + 1) P = some (Except.ok order) ∧
      order ≠ [] ∧ order.getLast? = some P ∧ order.Nodup ∧
      (∀ x d, x ∈ order → Relation.TransGen (DepEdge ps) x d →
        d ∈ order ∧ order.indexOf d < order.indexOf x) := by
  have hinv0 : VisitInv ps ⟨[], [], []⟩ :=
    ⟨by simp, List.nodup_nil, List.nodup_nil, by simp, by simp⟩
  have htot := visitDeps_total ps (ps.length + 1) P ⟨[], [], []⟩ hinv0 (by simp) (by simp)
  cases hv : visitDeps ps (ps.length + 1) P ⟨[], [], []⟩ with
  | none => exact absurd hv htot
  | some r =>
    cases r with
    | error e =>
      exfalso
      have herr := visitDeps_err_inv ps P (ps.length + 1) P ⟨[], [], []⟩ e hv hinv0
        Relation.ReflTransGen.refl (by simp)
      rcases herr with ⟨i, _, hreach, hcyc⟩ | ⟨d, _, hreach, hnone⟩
      · exact hacyc i hreach hcyc
      · have hcon := hpresent d hreach
        unfold containsPlugin at hcon
        rw [hnone] at hcon
        simp at hcon
    | ok sF =>
      have hok := visitDeps_ok_inv ps (ps.length + 1) P ⟨[], [], []⟩ sF hv hinv0
      obtain ⟨t, ht⟩ := hok.pushed_last (by simp)
      have hres : resolveLoadOrder ps (ps.length + 1) P = some (Except.ok sF.result) := by
        unfold resolveLoadOrder
        rw [hv]
      refine ⟨sF.result, hres, ?_, ?_, hok.inv.nodupRes, ?_⟩
      · rw [ht]; simp
      · rw [ht]; simp
      · intro x d hx htg
        induction htg with
        | single h => exact hok.inv.respects x _ hx h
        | tail hxb hbd ih =>
          obtain ⟨hb, hidxb⟩ := ih
          obtain ⟨hd, hidxd⟩ := hok.inv.respects _ _ hb hbd
          exact ⟨hd, lt_trans hidxd hidxb⟩

/-- No dependency edge leaves `A` in the one-plugin inventory. -/
theorem psA_no_edge (y : String) : ¬ DepEdge psA "A" y := by
  rintro ⟨p, hp, hd⟩
  have hp0 : lookupPlugin psA "A" = some ⟨manifestW "A" [] [], ["A"], "A", false⟩ := rfl
  rw [hp0] at hp
  obtain rfl := Option.some.inj hp
  simp [manifestW] at hd

/-- The one-plugin inventory reaches only `A` from `A`. -/
theorem psA_reach (x : String) (h : Reaches psA "A" x) : x = "A" := by
  induction h with
  | refl => rfl
  | tail hab hbc ih =>
    subst ih
    exact absurd hbc (psA_no_edge _)

/-- The one-plugin inventory has no dependency cycle at `A`. -/
theorem psA_no_cycle : ¬ Relation.TransGen (DepEdge psA) "A" "A" := by
  have hgen : ∀ z, ¬ Relation.TransGen (DepEdge psA) "A" z := by
    intro z h
    induction h with
    | single hd => exact psA_no_edge _ hd
    | tail _ _ ih => exact ih
  exact hgen "A"

/-- Witness for C2 on the one-plugin inventory: the produced order is
exactly `[A]`, duplicate-free and ending in `A`. -/
theorem resolve_load_order_correct_witness :
    resolveLoadOrder psA (psA.length + 1) "A" = some (Except.ok ["A"]) ∧
    (["A"] : List String).Nodup ∧ (["A"] : List String).getLast? = some "A" := by
  obtain ⟨order, h1, hne, hlast, hnd, hresp⟩ :=
    resolve_load_order_correct psA "A" (by decide)
      (fun x hx => by rw [psA_reach x hx]; decide)
      (fun x hx => by rw [psA_reach x hx]; exact psA_no_cycle)
  have h2 : resolveLoadOrder psA (psA.length + 1) "A" = some (Except.ok ["A"]) := rfl
  rw [h2] at h1
  obtain rfl : order = ["A"] := (Except.ok.inj (Option.some.inj h1)).symm
  exact ⟨h2, hnd, hlast⟩

/-- Dependency edge X -> Y of the two-plugin cycle. -/
theorem psXY_edge_XY : DepEdge psXY "X" "Y" :=
  ⟨⟨manifestW "X" ["Y"] [], ["X"], "X", false⟩, rfl, by simp [manifestW]⟩

/-- Dependency edge Y -> X of the two-plugin cycle. -/
theorem psXY_edge_YX : DepEdge psXY "Y" "X" :=
  ⟨⟨manifestW "Y" ["X"] [], ["Y"], "Y", false⟩, rfl, by simp [manifestW]⟩

/-- Reachable ids of the two-plugin cycle from `X` are `X` and `Y`. -/
theorem psXY_reach (x : String) (h : Reaches psXY "X" x) : x = "X" ∨ x = "Y" := by
  induction h with
  | refl => exact Or.inl rfl
  | tail hab hbc ih =>
    rcases ih with rfl | rfl
    · rcases hbc with ⟨p, hp, hd⟩
      have hp0 : lookupPlugin psXY "X" = some ⟨manifestW "X" ["Y"] [], ["X"], "X", false⟩ := rfl
      rw [hp0] at hp
      obtain rfl := Option.some.inj hp
      simp [manifestW] at hd
      exact Or.inr hd
    · rcases hbc with ⟨p, hp, hd⟩
      have hp0 : lookupPlugin psXY "Y" = some ⟨manifestW "Y" ["X"] [], ["Y"], "Y", false⟩ := rfl
      rw [hp0] at hp
      obtain rfl := Option.some.inj hp
      simp [manifestW] at hd
      exact Or.inl hd

/-- C7 (amended): when every id reachable from `T` is present in the
inventory and the reachable dependency graph contains a cycle, resolution
fails with `CircularDependency` carrying a reachable id that lies on a
dependency cycle (an id encountered while still in progress); in
particular, for the two-plugin cycle X -> Y -> X, resolving X yields
`CircularDependency("X")`.  Without the presence hypothesis the resolver
may instead report `DependencyNotFound` (see the counterexample). -/
theorem resolve_cycle_detected (ps : Plugins) (P : String)
    (hpresent : ∀ x, Reaches ps P x → containsPlugin ps x = true)
    (hcycle : ∃ x, Reaches ps P x ∧ Relation.TransGen (DepEdge ps) x x) :
    (∃ i, resolveLoadOrder ps (ps.length + 1) P =
        some (Except.error (HostError.circularDependency i)) ∧
      Reaches ps P i ∧ Relation.TransGen (DepEdge ps) i i) ∧
    resolveLoadOrder psXY (psXY.length + 1) "X" =
      some (Except.error (HostError.circularDependency "X")) := by
  refine ⟨?_, rfl⟩
  have hinv0 : VisitInv ps ⟨[], [], []⟩ :=
    ⟨by simp, List.nodup_nil, List.nodup_nil, by simp, by simp⟩
  have htot := visitDeps_total ps (ps.length + 1) P ⟨[], [], []⟩ hinv0 (by simp) (by simp)
  cases hv : visitDeps ps (ps.length + 1) P ⟨[], [], []⟩ with
  | none => exact absurd hv htot
  | some r =>
    cases r with
    | ok sF =>
      exfalso
      have hok := visitDeps_ok_inv ps (ps.length + 1) P ⟨[], [], []⟩ sF hv hinv0
      obtain ⟨t, ht⟩ := hok.pushed_last (by simp)
      have hPmem : P ∈ sF.result := by rw [ht]; simp
      have hcomp : ∀ x, Reaches ps P x → x ∈ sF.result := by
        intro x hx
        induction hx with
        | refl => exact hPmem
        | tail hab hbc ih => exact (hok.inv.respects _ _ ih hbc).1
      obtain ⟨x, hxreach, hxcyc⟩ := hcycle
      have hxmem := hcomp x hxreach
      have htrans : ∀ d, Relation.TransGen (DepEdge ps) x d →
          d ∈ sF.result ∧ sF.result.indexOf d < sF.result.indexOf x := by
        intro d htg
        induction htg with
        | single h => exact hok.inv.respects x _ hxmem h
        | tail hxb hbd ih =>
          obtain ⟨hb, hidxb⟩ := ih
          obtain ⟨hd, hidxd⟩ := hok.inv.respects _ _ hb hbd
          exact ⟨hd, lt_trans hidxd hidxb⟩
      exact absurd (htrans x hxcyc).2 (lt_irrefl _)
    | error e =>
      have herr := visitDeps_err_inv ps P (ps.length + 1) P ⟨[], [], []⟩ e hv hinv0
        Relation.ReflTransGen.refl (by simp)
      rcases herr with ⟨i, rfl, hreach, hcyc⟩ | ⟨d, rfl, hreach, hnone⟩
      · refine ⟨i, ?_, hreach, hcyc⟩
        unfold resolveLoadOrder
        rw [hv]
      · exfalso
        have hcon := hpresent d hreach
        unfold containsPlugin at hcon
        rw [hnone] at hcon
        simp at hcon

/-- C7 counterexample: in `psTab` the dependency graph reachable from `T`
contains the cycle `b -> b`, yet resolving `T` fails with
`DependencyNotFound "a"` — not with a `CircularDependency` — because the
missing dependency `a` is checked first. -/
theorem resolve_cycle_unreported_cex :
    resolveLoadOrder psTab (psTab.length + 1) "T" =
      some (Except.error (HostError.dependencyNotFound "a")) ∧
    Reaches psTab "T" "b" ∧ Relation.TransGen (DepEdge psTab) "b" "b" := by
  refine ⟨rfl, ?_, ?_⟩
  · exact Relation.ReflTransGen.single
      ⟨⟨manifestW "T" ["a", "b"] [], ["T"], "T", false⟩, rfl, by simp [manifestW]⟩
  · exact Relation.TransGen.single
      ⟨⟨manifestW "b" ["b"] [], ["b"], "b", false⟩, rfl, by simp [manifestW]⟩

/-- Witness for C7 on the two-plugin cycle: resolving X reports
`CircularDependency("X")`, with `X` on an actual dependency cycle. -/
theorem resolve_cycle_detected_witness :
    resolveLoadOrder psXY (psXY.length + 1) "X" =
      some (Except.error (HostError.circularDependency "X")) ∧
    Relation.TransGen (DepEdge psXY) "X" "X" := by
  obtain ⟨⟨i, h1, h2, h3⟩, h4⟩ := resolve_cycle_detected psXY "X"
    (fun x hx => by rcases psXY_reach x hx with rfl | rfl <;> decide)
    ⟨"X", Relation.ReflTransGen.refl,
      Relation.TransGen.head psXY_edge_XY (Relation.TransGen.single psXY_edge_YX)⟩
  have hval : resolveLoadOrder psXY (psXY.length + 1) "X" =
      some (Except.error (HostError.circularDependency "X")) := rfl
  rw [hval] at h1
  obtain rfl : i = "X" := by
    have h5 := Except.error.inj (Option.some.inj h1)
    injection h5 with h6
    exact h6.symm
  exact ⟨hval, h3⟩

end ResolverTheorems

section HostTheorems

/-- A service id outside a registry's keys is not found. -/
theorem findService_none_of_not_mem_keys (reg : Registry) (s : String)
    (h : s ∉ reg.map Prod.fst) : findService reg s = none := by
  have hf : reg.find? (fun e => e.1 == s) = none := by
    apply List.find?_eq_none.mpr
    intro x hx
    simp only [beq_iff_eq]
    intro hxs
    exact h (List.mem_map.mpr ⟨x, hx, hxs⟩)
  unfold findService
  rw [hf]
  rfl

/-- With duplicate-free keys, any list element carrying the looked-up key
is the found entry. -/
theorem findService_unique {reg : Registry} (hkeys : (reg.map Prod.fst).Nodup)
    {s : String} {entry : RegisteredService} (hentry : findService reg s = some entry)
    {x : String × RegisteredService} (hx : x ∈ reg) (hxs : x.1 = s) : x.2 = entry := by
  induction reg with
  | nil => cases hx
  | cons e rest ih =>
    rw [List.map_cons, List.nodup_cons] at hkeys
    rcases List.mem_cons.mp hx with rfl | hx'
    · unfold findService at hentry
      rw [List.find?_cons_of_pos _ (by simp [hxs])] at hentry
      simpa using hentry
    · by_cases hes : e.1 = s
      · exfalso
        apply hkeys.1
        rw [hes, ← hxs]
        exact List.mem_map.mpr ⟨x, hx', rfl⟩
      · unfold findService at hentry
        rw [List.find?_cons_of_neg _ (by simp [hes])] at hentry
        exact ih hkeys.2 hentry hx'

/-- After `unregister_provider p`, a service id whose (unique) entry came
from provider `p` no longer resolves. -/
theorem lookup_unregisterProvider_none (reg : Registry) (p s : String)
    (hkeys : (reg.map Prod.fst).Nodup) (entry : RegisteredService)
    (hentry : findService reg s = some entry)
    (hprov : entry.descriptor.provider_id = p) :
    lookup (unregisterProvider reg p) s = none := by
  have hnone : findService (unregisterProvider reg p) s = none := by
    apply findService_none_of_not_mem_keys
    intro hmem
    rcases List.mem_map.mp hmem with ⟨x, hx, hxs⟩
    rcases List.mem_filter.mp hx with ⟨hxreg, hkeep⟩
    have hxe := findService_unique hkeys hentry hxreg hxs
    rw [hxe] at hkeep
    simp [hprov] at hkeep
  unfold lookup
  rw [hnone]
  rfl

/-- Neither branch of the shared disable block touches the registry. -/
theorem disableOne_registry (h : HostState) (x : String) :
    (disableOne h x).1.service_registry = h.service_registry := by
  unfold disableOne
  cases lookupLoaded h.loaded x <;> rfl

/-- The dependent-disable loop does not touch the registry. -/
theorem disableList_registry : ∀ (l : List String) (h : HostState),
    (disableList h l).1.service_registry = h.service_registry
  | [], _ => rfl
  | pid :: rest, h => by
    show (disableList (disableOne h pid).1 rest).1.service_registry = _
    rw [disableList_registry rest (disableOne h pid).1, disableOne_registry]

/-- C3 counterexample: the plain `disable` leaves the service registry
untouched, so after disabling provider `p` the lookup of its registered
service `svc` still returns the stored handle. -/
theorem disable_keeps_services_cex :
    (disable hostC3 "p").1 = Except.ok () ∧
    findService hostC3.service_registry "svc" =
      some ⟨⟨"svc", ⟨1, 0, 0⟩, "p"⟩, ⟨"svc", 3⟩⟩ ∧
    lookup (disable hostC3 "p").2.service_registry "svc" = some ⟨"svc", 3⟩ :=
  ⟨rfl, rfl, rfl⟩

/-- C3 (amended): after a successful `disable_with_dependents(p)` every
registry entry whose descriptor's provider id equals `p` has been removed,
so lookup on such a service id no longer returns a handle.  The plain
`disable` does not unregister services (see the counterexample); the
service-removal guarantee belongs to `disable_with_dependents`. -/
theorem disable_with_dependents_unregisters (h : HostState) (fuel : Nat) (p : String)
    (r : Except HostError Unit) (h' : HostState) (trace : List HostEvent)
    (hkeys : (h.service_registry.map Prod.fst).Nodup)
    (hrun : disableWithDependents h fuel p = some (r, h', trace))
    (s : String) (entry : RegisteredService)
    (hentry : findService h.service_registry s = some entry)
    (hprov : entry.descriptor.provider_id = p) :
    lookup h'.service_registry s = none := by
  unfold disableWithDependents at hrun
  cases hfd : findDependents h.plugins fuel p with
  | none => rw [hfd] at hrun; cases hrun
  | some dependents =>
    rw [hfd] at hrun
    have hreg : h'.service_registry = unregisterProvider h.service_registry p := by
      have heq := congrArg (fun t => t.2.1.service_registry) (Option.some.inj hrun)
      simp only at heq
      rw [disableOne_registry] at heq
      simp only at heq
      rw [disableList_registry] at heq
      exact heq.symm
    rw [hreg]
    exact lookup_unregisterProvider_none h.service_registry p s hkeys entry hentry hprov

/-- Witness for the amended C3: disabling provider `p` with dependents on
the concrete host removes its service, so the lookup yields nothing. -/
theorem disable_with_dependents_unregisters_witness :
    lookup hostC3'.service_registry "svc" = none :=
  disable_with_dependents_unregisters hostC3 5 "p" (Except.ok ()) hostC3'
    [HostEvent.unregisterProvider "p", HostEvent.cleanup "p"] (by decide) rfl
    "svc" ⟨⟨"svc", ⟨1, 0, 0⟩, "p"⟩, ⟨"svc", 3⟩⟩ rfl rfl

/-- An id keyed by an appended singleton is always in the loaded map. -/
theorem containsLoaded_append_self {m : LoadedMap} {pid : String} (lp : LoadedPlugin) :
    containsLoaded (m ++ [(pid, lp)]) pid = true := by
  unfold containsLoaded lookupLoaded
  rw [List.find?_append]
  cases hf : m.find? (fun e => e.1 == pid) with
  | none => simp
  | some e => simp

/-- The requirement loop fails with some `ServiceNotAvailable` whenever the
list holds a non-optional, unversioned requirement on an absent service. -/
theorem verifyRequires_err_of_missing (reg : Registry) :
    ∀ (reqs : List ServiceRequirement) (req : ServiceRequirement),
      req ∈ reqs → req.optional = false → req.min_version = none →
      lookup reg req.id = none →
      ∃ svc msg, verifyRequires reg reqs =
        Except.error (HostError.serviceNotAvailable svc msg) := by
  intro reqs
  induction reqs with
  | nil =>
    intro req h
    cases h
  | cons r rest ih =>
    intro req hmem hopt hver habs
    rcases List.mem_cons.mp hmem with rfl | hmem'
    · refine ⟨req.id, "Service not found", ?_⟩
      unfold verifyRequires
      simp [hopt, hver, habs]
    · by_cases hro : r.optional
      · obtain ⟨svc, msg, hres⟩ := ih req hmem' hopt hver habs
        refine ⟨svc, msg, ?_⟩
        unfold verifyRequires
        simp [hro]
        exact hres
      · cases hmv : r.min_version with
        | some mvs =>
          cases hp : ServiceVersion.parse mvs with
          | none =>
            refine ⟨r.id, "Invalid version string: " ++ mvs, ?_⟩
            unfold verifyRequires
            simp [hro, hmv, hp]
          | some mv =>
            cases hlv : lookupVersioned reg r.id mv with
            | error e =>
              refine ⟨r.id, e.message, ?_⟩
              unfold verifyRequires
              simp [hro, hmv, hp, hlv]
            | ok hdl =>
              obtain ⟨svc, msg, hres⟩ := ih req hmem' hopt hver habs
              refine ⟨svc, msg, ?_⟩
              unfold verifyRequires
              simp [hro, hmv, hp, hlv]
              exact hres
        | none =>
          by_cases hl : (lookup reg r.id).isNone
          · refine ⟨r.id, "Service not found", ?_⟩
            unfold verifyRequires
            simp [hro, hmv, hl]
          · obtain ⟨svc, msg, hres⟩ := ih req hmem' hopt hver habs
            refine ⟨svc, msg, ?_⟩
            unfold verifyRequires
            simp [hro, hmv, hl]
            exact hres

/-- C10: the public `enable` performs no required-service verification: it
loads and initialises a plugin even when a non-optional `requires` entry
names a service absent from the registry, while `verify_required_services`
rejects the same state, so `enable_single` (the `enable_with_dependencies`
path) fails with `ServiceNotAvailable` and leaves the host unchanged. -/
theorem enable_skips_service_verification (env : LoadEnv) (h : HostState) (P : String)
    (plugin : InstalledPlugin) (lp : LoadedPlugin) (req : ServiceRequirement)
    (hnl : containsLoaded h.loaded P = false)
    (hp : lookupPlugin h.plugins P = some plugin)
    (hpath : plugin.path ∈ h.fs)
    (hload : env.loadAndInit plugin.path plugin.manifest = Except.ok lp)
    (hreq : req ∈ plugin.manifest.requires)
    (hnopt : req.optional = false)
    (hnover : req.min_version = none)
    (habsent : lookup h.service_registry req.id = none) :
    (enable env h P).1 = Except.ok () ∧
    containsLoaded (enable env h P).2.loaded P = true ∧
    (∃ svc msg, verifyRequiredServices h P =
      Except.error (HostError.serviceNotAvailable svc msg)) ∧
    (∃ svc msg, enableSingle env h P =
      (Except.error (HostError.serviceNotAvailable svc msg), h)) := by
  obtain ⟨svc, msg, hv⟩ := verifyRequires_err_of_missing h.service_registry
    plugin.manifest.requires req hreq hnopt hnover habsent
  have hvrs : verifyRequiredServices h P =
      Except.error (HostError.serviceNotAvailable svc msg) := by
    unfold verifyRequiredServices
    rw [hp]
    exact hv
  have henable : enable env h P =
      (Except.ok (), { h with plugins := setEnabled h.plugins P true,
                              loaded := h.loaded ++ [(P, lp)] }) := by
    unfold enable
    rw [if_neg (by simp [hnl]), hp]
    simp only
    rw [if_neg (not_not_intro hpath), hload]
  have hesingle : enableSingle env h P =
      (Except.error (HostError.serviceNotAvailable svc msg), h) := by
    unfold enableSingle
    rw [if_neg (by simp [hnl]), hp]
    simp only
    rw [if_neg (not_not_intro hpath), hvrs]
  refine ⟨by rw [henable], ?_, ⟨svc, msg, hvrs⟩, ⟨svc, msg, hesingle⟩⟩
  rw [henable]
  exact containsLoaded_append_self lp

/-- Witness for C10 on a concrete host whose only plugin requires an
absent service: `enable` succeeds and loads it, while the verifying path
`enable_single` fails with `ServiceNotAvailable`. -/
theorem enable_skips_service_verification_witness :
    (enable envW hostC10 "q").1 = Except.ok () ∧
    containsLoaded (enable envW hostC10 "q").2.loaded "q" = true ∧
    enableSingle envW hostC10 "q" =
      (Except.error (HostError.serviceNotAvailable "need.svc" "Service not found"),
        hostC10) := by
  obtain ⟨h1, h2, h3, h4⟩ := enable_skips_service_verification envW hostC10 "q"
    ⟨manifestW "q" [] [⟨"need.svc", none, false⟩], ["q", "q.so"], "q", false⟩ (loadedW "q")
    ⟨"need.svc", none, false⟩ rfl rfl (by decide) rfl (by decide) rfl rfl rfl
  exact ⟨h1, h2, rfl⟩

/-- A successful inventory lookup is membership of the key-value pair. -/
theorem mem_of_lookupPlugin {ps : Plugins} {o : String} {p : InstalledPlugin}
    (h : lookupPlugin ps o = some p) : (o, p) ∈ ps := by
  unfold lookupPlugin at h
  cases hf : ps.find? (fun e => e.1 == o) with
  | none => rw [hf] at h; cases h
  | some e =>
    rw [hf] at h
    have hmem := List.mem_of_find?_eq_some hf
    have hk : e.1 = o := by simpa using List.find?_some hf
    have hv : e.2 = p := by simpa using h
    have he : e = (o, p) := Prod.ext hk hv
    rw [← he]
    exact hmem

/-- With duplicate-free keys, membership determines the lookup result. -/
theorem lookupPlugin_eq_of_mem_of_nodup {ps : Plugins} (hwf : (ps.map Prod.fst).Nodup)
    {k : String} {v : InstalledPlugin} (hmem : (k, v) ∈ ps) :
    lookupPlugin ps k = some v := by
  induction ps with
  | nil => cases hmem
  | cons e rest ih =>
    rw [List.map_cons, List.nodup_cons] at hwf
    rcases List.mem_cons.mp hmem with heq | hmem'
    · rw [← heq]
      unfold lookupPlugin
      rw [List.find?_cons_of_pos _ (by simp)]
      rfl
    · by_cases hek : e.1 = k
      · exfalso
        apply hwf.1
        rw [hek]
        exact List.mem_map.mpr ⟨(k, v), hmem', rfl⟩
      · unfold lookupPlugin
        rw [List.find?_cons_of_neg _ (by simp [hek])]
        exact ih hwf.2 hmem'

/-- Invariant run of the `find_dependents` worklist loop: on success, every
recorded dependent transitively depends on `T`; everything on the stack or
checked ends checked; the final checked set is closed under inverse
dependency edges; and every checked id other than `T` is recorded. -/
theorem findDependentsLoop_spec (ps : Plugins) (T : String)
    (hwf : (ps.map Prod.fst).Nodup) :
    ∀ (fuel : Nat) (stack checked deps : List String) (out : List String × List String),
      findDependentsLoop ps fuel stack checked deps = some out →
      (∀ y ∈ stack, y = T ∨ Relation.TransGen (DepEdge ps) y T) →
      (∀ y ∈ checked, y = T ∨ Relation.TransGen (DepEdge ps) y T) →
      (∀ y ∈ deps, Relation.TransGen (DepEdge ps) y T) →
      (∀ a ∈ checked, ∀ o p, lookupPlugin ps o = some p →
        a ∈ p.manifest.compatibility.depends_on → o ∈ checked ∨ o ∈ stack) →
      (∀ y, y ∈ checked ∨ y ∈ stack → y = T ∨ y ∈ deps) →
      (∀ y ∈ out.1, Relation.TransGen (DepEdge ps) y T) ∧
      (∀ y, y ∈ stack ∨ y ∈ checked → y ∈ out.2) ∧
      (∀ a ∈ out.2, ∀ o p, lookupPlugin ps o = some p →
        a ∈ p.manifest.compatibility.depends_on → o ∈ out.2) ∧
      (∀ y ∈ out.2, y = T ∨ y ∈ out.1) := by
  intro fuel
  induction fuel with
  | zero =>
    intro stack checked deps out hrun
    cases hrun
  | succ f ihf =>
    intro stack checked deps out hrun hstack hchecked hdeps hclosure hcover
    cases stack with
    | nil =>
      obtain rfl : (deps, checked) = out := Option.some.inj hrun
      refine ⟨hdeps, ?_, ?_, ?_⟩
      · intro y hy
        rcases hy with hy | hy
        · cases hy
        · exact hy
      · intro a ha o p hlp hdep
        rcases hclosure a ha o p hlp hdep with ho | ho
        · exact ho
        · cases ho
      · intro y hy
        exact hcover y (Or.inl hy)
    | cons id rest =>
      by_cases hidc : id ∈ checked
      · rw [show findDependentsLoop ps (f + 1) (id :: rest) checked deps =
            findDependentsLoop ps f rest checked deps by
          simp only [findDependentsLoop]; rw [if_pos hidc]] at hrun
        have hout := ihf rest checked deps out hrun
          (fun y hy => hstack y (List.mem_cons_of_mem id hy)) hchecked hdeps
          (fun a ha o p hlp hdep => by
            rcases hclosure a ha o p hlp hdep with ho | ho
            · exact Or.inl ho
            · rcases List.mem_cons.mp ho with rfl | ho'
              · exact Or.inl hidc
              · exact Or.inr ho')
          (fun y hy => hcover y (by
            rcases hy with hy | hy
            · exact Or.inl hy
            · exact Or.inr (List.mem_cons_of_mem id hy)))
        refine ⟨hout.1, ?_, hout.2.2.1, hout.2.2.2⟩
        intro y hy
        rcases hy with hy | hy
        · rcases List.mem_cons.mp hy with rfl | hy'
          · exact hout.2.1 y (Or.inr hidc)
          · exact hout.2.1 y (Or.inl hy')
        · exact hout.2.1 y (Or.inr hy)
      · have hidT : id = T ∨ Relation.TransGen (DepEdge ps) id T :=
          hstack id (List.mem_cons_self id rest)
        rw [show findDependentsLoop ps (f + 1) (id :: rest) checked deps =
            findDependentsLoop ps f
              (((ps.filter (fun e =>
                e.2.manifest.compatibility.depends_on.contains id &&
                  ! (id :: checked).contains e.1)).map Prod.fst).reverse ++ rest)
              (id :: checked)
              (deps ++ (ps.filter (fun e =>
                e.2.manifest.compatibility.depends_on.contains id &&
                  ! (id :: checked).contains e.1)).map Prod.fst) by
          simp only [findDependentsLoop]; rw [if_neg hidc]] at hrun
      -- facts about hits
        have hhit : ∀ y, y ∈ (ps.filter (fun e =>
            e.2.manifest.compatibility.depends_on.contains id &&
              ! (id :: checked).contains e.1)).map Prod.fst →
            DepEdge ps y id ∧ y ∉ id :: checked := by
          intro y hy
          rcases List.mem_map.mp hy with ⟨e, he, rfl⟩
          rcases List.mem_filter.mp he with ⟨hemem, hepred⟩
          simp only [Bool.and_eq_true, Bool.not_eq_true'] at hepred
          obtain ⟨hdep, hnc⟩ := hepred
          have hdep' : id ∈ e.2.manifest.compatibility.depends_on := by
            simpa using hdep
          have hnc' : e.1 ∉ id :: checked := by
            intro hmem2
            rw [show ((id :: checked).contains e.1) = true by simpa using hmem2] at hnc
            cases hnc
          have hlp : lookupPlugin ps e.1 = some e.2 :=
            lookupPlugin_eq_of_mem_of_nodup hwf (by
              rw [show (e.1, e.2) = e from rfl]
              exact hemem)
          exact ⟨⟨e.2, hlp, hdep'⟩, hnc'⟩
        have hhitT : ∀ y, y ∈ (ps.filter (fun e =>
            e.2.manifest.compatibility.depends_on.contains id &&
              ! (id :: checked).contains e.1)).map Prod.fst →
            Relation.TransGen (DepEdge ps) y T := by
          intro y hy
          have hedge := (hhit y hy).1
          rcases hidT with rfl | hT
          · exact Relation.TransGen.single hedge
          · exact Relation.TransGen.head hedge hT
        have hout := ihf _ _ _ out hrun
          (fun y hy => by
            rcases List.mem_append.mp hy with hy | hy
            · exact Or.inr (hhitT y (List.mem_reverse.mp hy))
            · exact hstack y (List.mem_cons_of_mem id hy))
          (fun y hy => by
            rcases List.mem_cons.mp hy with rfl | hy'
            · exact hidT
            · exact hchecked y hy')
          (fun y hy => by
            rcases List.mem_append.mp hy with hy | hy
            · exact hdeps y hy
            · exact hhitT y hy)
          (fun a ha o p hlp hdep => by
            rcases List.mem_cons.mp ha with rfl | ha'
            · by_cases hoc : o ∈ a :: checked
              · exact Or.inl hoc
              · refine Or.inr (List.mem_append.mpr (Or.inl ?_))
                rw [List.mem_reverse]
                refine List.mem_map.mpr ⟨(o, p), ?_, rfl⟩
                refine List.mem_filter.mpr ⟨mem_of_lookupPlugin hlp, ?_⟩
                simp only [Bool.and_eq_true, Bool.not_eq_true']
                constructor
                · simpa using hdep
                · simpa using hoc
            · rcases hclosure a ha' o p hlp hdep with ho | ho
              · exact Or.inl (List.mem_cons_of_mem id ho)
              · rcases List.mem_cons.mp ho with rfl | ho'
                · exact Or.inl (List.mem_cons_self o checked)
                · exact Or.inr (List.mem_append.mpr (Or.inr ho')))
          (fun y hy => by
            rcases hy with hy | hy
            · rcases List.mem_cons.mp hy with rfl | hy'
              · rcases hcover y (Or.inr (List.mem_cons_self y rest)) with hT | hd
                · exact Or.inl hT
                · exact Or.inr (List.mem_append.mpr (Or.inl hd))
              · rcases hcover y (Or.inl hy') with hT | hd
                · exact Or.inl hT
                · exact Or.inr (List.mem_append.mpr (Or.inl hd))
            · rcases List.mem_append.mp hy with hy | hy
              · exact Or.inr (List.mem_append.mpr (Or.inr (List.mem_reverse.mp hy)))
              · rcases hcover y (Or.inr (List.mem_cons_of_mem id hy)) with hT | hd
                · exact Or.inl hT
                · exact Or.inr (List.mem_append.mpr (Or.inl hd)))
        refine ⟨hout.1, ?_, hout.2.2.1, hout.2.2.2⟩
        intro y hy
        rcases hy with hy | hy
        · rcases List.mem_cons.mp hy with rfl | hy'
          · exact hout.2.1 y (Or.inr (List.mem_cons_self y checked))
          · exact hout.2.1 y (Or.inl (List.mem_append.mpr (Or.inr hy')))
        · exact hout.2.1 y (Or.inr (List.mem_cons_of_mem id hy))

/-- Soundness and completeness of `find_dependents`: on success it lists
only, and (besides the target itself) all, transitive dependents. -/
theorem findDependents_spec (ps : Plugins) (fuel : Nat) (T : String)
    (hwf : (ps.map Prod.fst).Nodup) (deps : List String)
    (hrun : findDependents ps fuel T = some deps) :
    (∀ y ∈ deps, Relation.TransGen (DepEdge ps) y T) ∧
    (∀ X, Relation.TransGen (DepEdge ps) X T → X = T ∨ X ∈ deps) := by
  unfold findDependents at hrun
  cases hloop : findDependentsLoop ps fuel [T] [] [] with
  | none => rw [hloop] at hrun; cases hrun
  | some out =>
    rw [hloop] at hrun
    obtain rfl : out.1 = deps := by simpa using hrun
    have hspec := findDependentsLoop_spec ps T hwf fuel [T] [] [] out hloop
      (by
        intro y hy
        rcases List.mem_singleton.mp hy with rfl
        exact Or.inl rfl)
      (by intro y hy; cases hy)
      (by intro y hy; cases hy)
      (by intro a ha; cases ha)
      (by
        intro y hy
        rcases hy with hy | hy
        · cases hy
        · rcases List.mem_singleton.mp hy with rfl
          exact Or.inl rfl)
    refine ⟨hspec.1, ?_⟩
    intro X hX
    have hT2 : T ∈ out.2 := hspec.2.1 T (Or.inl (List.mem_singleton.mpr rfl))
    have hX2 : X ∈ out.2 := by
      refine Relation.TransGen.head_induction_on hX ?_ ?_
      · intro a ha
        rcases ha with ⟨p, hlp, hdep⟩
        exact hspec.2.2.1 T hT2 a p hlp hdep
      · intro a c hac hcT hc
        rcases hac with ⟨p, hlp, hdep⟩
        exact hspec.2.2.1 c hc a p hlp hdep
    exact hspec.2.2.2 X hX2

/-- Membership in the loaded map as existence of an entry. -/
theorem containsLoaded_iff (m : LoadedMap) (y : String) :
    containsLoaded m y = true ↔ ∃ e ∈ m, e.1 = y := by
  unfold containsLoaded lookupLoaded
  rw [Option.isSome_map']
  rw [List.find?_isSome]
  constructor
  · rintro ⟨x, hx, hp⟩
    exact ⟨x, hx, by simpa using hp⟩
  · rintro ⟨x, hx, hp⟩
    exact ⟨x, hx, by simpa using hp⟩

/-- The shared disable block only removes loaded plugins. -/
theorem disableOne_mono (h : HostState) (x y : String)
    (hc : containsLoaded (disableOne h x).1.loaded y = true) :
    containsLoaded h.loaded y = true := by
  unfold disableOne at hc
  cases hl : lookupLoaded h.loaded x with
  | some lp =>
    rw [hl] at hc
    simp only at hc
    rcases (containsLoaded_iff _ y).mp hc with ⟨e, he, hey⟩
    exact (containsLoaded_iff _ y).mpr ⟨e, (List.mem_filter.mp he).1, hey⟩
  | none =>
    rw [hl] at hc
    exact hc

/-- The shared disable block removes its argument from the loaded map. -/
theorem disableOne_removes (h : HostState) (x : String) :
    containsLoaded (disableOne h x).1.loaded x = false := by
  unfold disableOne
  cases hl : lookupLoaded h.loaded x with
  | some lp =>
    simp only
    rw [Bool.eq_false_iff]
    intro hc
    rcases (containsLoaded_iff _ x).mp hc with ⟨e, he, hex⟩
    rcases List.mem_filter.mp he with ⟨-, hkeep⟩
    simp [hex] at hkeep
  | none =>
    simp only
    unfold containsLoaded
    rw [show lookupLoaded h.loaded x = none from hl]
    rfl

/-- The dependent loop only removes loaded plugins. -/
theorem disableList_mono : ∀ (l : List String) (h : HostState) (y : String),
    containsLoaded (disableList h l).1.loaded y = true → containsLoaded h.loaded y = true
  | [], _, _ => fun hc => hc
  | pid :: rest, h, y => fun hc =>
    disableOne_mono h pid y (disableList_mono rest (disableOne h pid).1 y hc)

/-- The dependent loop removes every id it is given. -/
theorem disableList_removes : ∀ (l : List String) (h : HostState) (x : String), x ∈ l →
    containsLoaded (disableList h l).1.loaded x = false
  | [], _, _, hx => absurd hx (List.not_mem_nil _)
  | pid :: rest, h, x, hx => by
    rcases List.mem_cons.mp hx with rfl | hx'
    · rw [Bool.eq_false_iff]
      intro hc
      have h1 := disableList_mono rest (disableOne h x).1 x hc
      rw [disableOne_removes h x] at h1
      cases h1
    · exact disableList_removes rest (disableOne h pid).1 x hx'

/-- Events of the shared disable block are cleanups of its argument. -/
theorem disableOne_trace (h : HostState) (x : String) :
    ∀ e ∈ (disableOne h x).2, e = HostEvent.cleanup x := by
  unfold disableOne
  cases lookupLoaded h.loaded x with
  | some lp =>
    simp only
    intro e he
    unfold cleanupEvents at he
    by_cases hi : lp.initialized
    · rw [if_pos hi] at he
      simpa using he
    · rw [if_neg hi] at he
      cases he
  | none =>
    intro e he
    cases he

/-- Events of the dependent loop are cleanups of listed ids. -/
theorem disableList_trace : ∀ (l : List String) (h : HostState),
    ∀ e ∈ (disableList h l).2, ∃ d ∈ l, e = HostEvent.cleanup d
  | [], _ => by
    intro e he
    cases he
  | pid :: rest, h => by
    intro e he
    have hsplit : (disableList h (pid :: rest)).2 =
        (disableOne h pid).2 ++ (disableList (disableOne h pid).1 rest).2 := rfl
    rw [hsplit] at he
    rcases List.mem_append.mp he with he | he
    · exact ⟨pid, List.mem_cons_self _ _, disableOne_trace h pid e he⟩
    · obtain ⟨d, hd, hde⟩ := disableList_trace rest (disableOne h pid).1 e he
      exact ⟨d, List.mem_cons_of_mem _ hd, hde⟩

/-- C6: after `disable_with_dependents(T)` returns, neither `T` nor any
plugin transitively listing `T` in its `depends_on` remains loaded; the
dependents' cleanups all precede the unregistration of `T`'s services, and
`T`'s own cleanup comes after that unregistration. -/
theorem disable_with_dependents_cascades (h : HostState) (fuel : Nat) (T : String)
    (hwf : (h.plugins.map Prod.fst).Nodup)
    (r : Except HostError Unit) (h' : HostState) (trace : List HostEvent)
    (hrun : disableWithDependents h fuel T = some (r, h', trace)) :
    r = Except.ok () ∧
    containsLoaded h'.loaded T = false ∧
    (∀ X, Relation.TransGen (DepEdge h.plugins) X T →
      containsLoaded h'.loaded X = false) ∧
    (∃ l1 l2, trace = l1 ++ HostEvent.unregisterProvider T :: l2 ∧
      (∀ e ∈ l1, ∃ d, e = HostEvent.cleanup d ∧
        Relation.TransGen (DepEdge h.plugins) d T) ∧
      (∀ e ∈ l2, e = HostEvent.cleanup T)) := by
  unfold disableWithDependents at hrun
  cases hfd : findDependents h.plugins fuel T with
  | none => rw [hfd] at hrun; cases hrun
  | some dependents =>
    rw [hfd] at hrun
    obtain ⟨hds, hcomp⟩ := findDependents_spec h.plugins fuel T hwf dependents hfd
    have heq := (Option.some.inj hrun).symm
    rw [Prod.mk.injEq, Prod.mk.injEq] at heq
    obtain ⟨hr, hh, htr⟩ := heq
    subst hh
    subst htr
    refine ⟨hr, disableOne_removes _ T, ?_, ?_⟩
    · intro X hX
      rcases hcomp X hX with rfl | hXdep
      · exact disableOne_removes _ X
      · rw [Bool.eq_false_iff]
        intro hc
        have h1 := disableOne_mono _ T X hc
        have h2 : containsLoaded (disableList h dependents.reverse).1.loaded X = true := h1
        rw [disableList_removes dependents.reverse h X (List.mem_reverse.mpr hXdep)] at h2
        cases h2
    · refine ⟨(disableList h dependents.reverse).2,
        (disableOne { (disableList h dependents.reverse).1 with
          service_registry :=
            unregisterProvider (disableList h dependents.reverse).1.service_registry T }
          T).2,
        by simp, ?_, ?_⟩
      · intro e he
        obtain ⟨d, hd, hde⟩ := disableList_trace dependents.reverse h e he
        exact ⟨d, hde, hds d (List.mem_reverse.mp hd)⟩
      · exact disableOne_trace _ T

/-- Witness for C6: disabling `A` with dependents on the concrete host
unloads both `A` and its transitive dependent `B`, with `B`'s cleanup
first, then the unregistration, then `A`'s cleanup. -/
theorem disable_with_dependents_cascades_witness :
    containsLoaded hostC6'.loaded "A" = false ∧
    containsLoaded hostC6'.loaded "B" = false ∧
    Relation.TransGen (DepEdge hostC6.plugins) "B" "A" := by
  have hB : Relation.TransGen (DepEdge hostC6.plugins) "B" "A" :=
    Relation.TransGen.single
      ⟨⟨manifestW "B" ["A"] [], ["B"], "B", true⟩, rfl, by simp [manifestW]⟩
  obtain ⟨h1, h2, h3, h4⟩ := disable_with_dependents_cascades hostC6 10 "A" (by decide)
    (Except.ok ()) hostC6'
    [HostEvent.cleanup "B", HostEvent.unregisterProvider "A", HostEvent.cleanup "A"] rfl
  exact ⟨h2, h3 "B" hB, hB⟩

/-- An error out of the scan loop leaves the maps of a completed scan of
the prefix of entries processed before the error. -/
theorem scanLoop_error_prefix (ext : String) :
    ∀ (es : List (Except HostError ScanEntry)) (maps : ScanMaps) (e : HostError),
      (scanLoop ext es maps).1 = Except.error e →
      ∃ k, (scanLoop ext (es.take k) maps).1 = Except.ok () ∧
        (scanLoop ext (es.take k) maps).2 = (scanLoop ext es maps).2 := by
  intro es
  induction es with
  | nil =>
    intro maps e h
    cases h
  | cons item rest ih =>
    intro maps e h
    cases item with
    | error e0 => exact ⟨0, rfl, rfl⟩
    | ok entry =>
      obtain ⟨k, h1, h2⟩ := ih (scanEntry ext maps entry) e h
      exact ⟨k + 1, h1, h2⟩

/-- C4 counterexample: with pre-scan inventory `old` and directory entries
`[a, IO error, b]`, the failed scan leaves the packages map holding
exactly `a` — neither the pre-scan inventory (`old`) nor a complete new
scan (`a, b`): a partial mixture. -/
theorem scan_installed_not_atomic_cex :
    (scanInstalled hostC4 true (Except.ok entriesC4) "so").1 =
      Except.error (HostError.ioError "io") ∧
    (scanInstalled hostC4 true (Except.ok entriesC4) "so").2.packages.map Prod.fst =
      ["a"] ∧
    hostC4.packages.map Prod.fst = ["old"] ∧
    (scanInstalled hostC4 true (Except.ok [Except.ok entryA, Except.ok entryB])
      "so").2.packages.map Prod.fst = ["a", "b"] := by
  refine ⟨rfl, by decide, by decide, by decide⟩

/-- C4 (amended): `scan_installed` clears both inventory maps up front, so
its outcome and maps are independent of the pre-scan inventory (no mixture
with old state); but the rebuild is not atomic: when the scan returns an
error, the maps are those of a completed scan of the prefix of directory
entries processed before the error — a partial rebuild. -/
theorem scan_installed_clears_and_prefix (h1 h2 : HostState) (dirExists : Bool)
    (entries : Except HostError (List (Except HostError ScanEntry))) (ext : String) :
    ((scanInstalled h1 dirExists entries ext).1 =
        (scanInstalled h2 dirExists entries ext).1 ∧
      (scanInstalled h1 dirExists entries ext).2.packages =
        (scanInstalled h2 dirExists entries ext).2.packages ∧
      (scanInstalled h1 dirExists entries ext).2.plugins =
        (scanInstalled h2 dirExists entries ext).2.plugins) ∧
    (∀ es e, entries = Except.ok es →
      (scanInstalled h1 dirExists entries ext).1 = Except.error e →
      ∃ k, (scanInstalled h1 dirExists (Except.ok (es.take k)) ext).1 = Except.ok () ∧
        (scanInstalled h1 dirExists entries ext).2.packages =
          (scanInstalled h1 dirExists (Except.ok (es.take k)) ext).2.packages ∧
        (scanInstalled h1 dirExists entries ext).2.plugins =
          (scanInstalled h1 dirExists (Except.ok (es.take k)) ext).2.plugins) := by
  cases dirExists with
  | false =>
    refine ⟨⟨rfl, rfl, rfl⟩, ?_⟩
    intro es e _ herr
    cases herr
  | true =>
    cases entries with
    | error e0 =>
      refine ⟨⟨rfl, rfl, rfl⟩, ?_⟩
      intro es e hes
      cases hes
    | ok es0 =>
      refine ⟨⟨rfl, rfl, rfl⟩, ?_⟩
      intro es e hes herr
      obtain rfl : es0 = es := Except.ok.inj hes
      obtain ⟨k, hk1, hk2⟩ := scanLoop_error_prefix ext es0 ([], []) e herr
      exact ⟨k, hk1, (congrArg Prod.fst hk2).symm, (congrArg Prod.snd hk2).symm⟩

/-- Witness for the amended C4 at concrete inputs: the post-scan maps do
not depend on the pre-scan inventory, and the failed scan's maps equal a
completed scan of the one-entry prefix. -/
theorem scan_installed_clears_and_prefix_witness :
    (scanInstalled hostC4 true (Except.ok entriesC4) "so").2.packages =
      (scanInstalled hostC4b true (Except.ok entriesC4) "so").2.packages ∧
    (scanInstalled hostC4 true (Except.ok (entriesC4.take 1)) "so").1 = Except.ok () ∧
    (scanInstalled hostC4 true (Except.ok entriesC4) "so").2.packages =
      (scanInstalled hostC4 true (Except.ok (entriesC4.take 1)) "so").2.packages := by
  obtain ⟨⟨-, hpkg, -⟩, hpref⟩ :=
    scan_installed_clears_and_prefix hostC4 hostC4b true (Except.ok entriesC4) "so"
  obtain ⟨k, hk1, hk2, -⟩ := hpref entriesC4 (HostError.ioError "io") rfl rfl
  exact ⟨hpkg, rfl, by decide⟩

end HostTheorems

end PluginHostModel
